import Mathlib

/-!
Verification of the platform-chain transaction executor, fee calculator,
gossip tracker and validator manager of this repository, as a shallow
embedding in Lean 4. Pure Go functions are translated into Lean functions;
Go maps are translated into association lists over natural-number keys;
bitsets are translated into finite sets of bit indices; 64-bit machine
arithmetic is made explicit with modulus 2 ^ 64 where the Go code can wrap.
Components of the repository that are referenced but whose source is not part
of the analysed subset (the fees manager, the per-height validator diffs, a
few state helpers) are modelled from the specification, and each such
definition is marked with a comment starting with: Modelled from the spec.
-/

set_option maxHeartbeats 1000000

namespace Avalanche

/-- Width bound of 64-bit machine integers. -/
def w64 : ℕ := 2 ^ 64

/-! ### Association-list maps

Go maps keyed by node ids, indices or subnet ids are embedded as association
lists over natural numbers. Lookup returns the first binding; insertion
removes any previous binding for the key, so maps built by these operations
have pairwise distinct keys. Iteration over a Go map in the sources only ever
applies an independent per-entry transformation, which is embedded as a map
over the entries, so the unspecified Go iteration order is immaterial. -/

/-- Lookup in an association list, first binding wins. -/
def mapLookup {β : Type} : List (ℕ × β) → ℕ → Option β
  | [], _ => none
  | (k, v) :: rest, k' => if k' = k then some v else mapLookup rest k'

/-- Go map insertion: bind key k to v, dropping any previous binding. -/
def mapInsert {β : Type} (m : List (ℕ × β)) (k : ℕ) (v : β) : List (ℕ × β) :=
  (k, v) :: m.filter (fun e => decide (e.1 ≠ k))

/-- Go map deletion: remove the binding of key k, if any. -/
def mapDelete {β : Type} (m : List (ℕ × β)) (k : ℕ) : List (ℕ × β) :=
  m.filter (fun e => decide (e.1 ≠ k))

/-! ### Gossip tracker (network/gossip_tracker.go)

Bitsets (ids.BigBitSet) are embedded as finite sets of bit indices; the
length of a bitset is one more than its highest set bit, matching the
big-integer bit length used by the Go implementation. The field named local
in the source is called localBits here because local is reserved in Lean. -/

/-- Bit length of a bitset: one more than the highest set bit, zero if empty. -/
def bitsetLen (bs : Finset ℕ) : ℕ := bs.sup (· + 1)

structure GossipTracker where
  /-- Bitset of the peers we are aware of (source field: local). -/
  localBits : Finset ℕ
  /-- Peer to bitset of the peers we know we sent to them. -/
  knownPeers : List (ℕ × Finset ℕ)
  /-- Peer to the index it occupies in the bitsets. -/
  peersToIndices : List (ℕ × ℕ)
  /-- Index in the bitsets to the peer it corresponds to. -/
  indicesToPeers : List (ℕ × ℕ)

/-- NewGossipTracker: empty tracker. -/
def emptyTracker : GossipTracker :=
  { localBits := ∅, knownPeers := [], peersToIndices := [], indicesToPeers := [] }

/-- GossipTracker.Contains: whether a peer is being tracked. -/
def GossipTracker.Contains (g : GossipTracker) (id : ℕ) : Bool :=
  (mapLookup g.knownPeers id).isSome

/-- GossipTracker.Add: start tracking a peer, assigning it the next index. -/
def GossipTracker.Add (g : GossipTracker) (id : ℕ) : GossipTracker × Bool :=
  match mapLookup g.peersToIndices id with
  | some _ => (g, false)
  | none =>
    let tail := g.peersToIndices.length
    ({ localBits := insert tail g.localBits
       knownPeers := mapInsert g.knownPeers id ∅
       peersToIndices := mapInsert g.peersToIndices id tail
       indicesToPeers := mapInsert g.indicesToPeers tail id }, true)

/-- GossipTracker.Remove: stop tracking a peer, swapping its index with the
tail index and patching every remaining known-peers bitset accordingly. -/
def GossipTracker.Remove (g : GossipTracker) (id : ℕ) : GossipTracker × Bool :=
  match mapLookup g.peersToIndices id with
  | none => (g, false)
  | some idx =>
    let evicted := (mapLookup g.indicesToPeers idx).getD 0
    let tail := g.peersToIndices.length - 1
    let lastPeer := (mapLookup g.indicesToPeers tail).getD 0
    let p2i := if idx ≠ tail then mapInsert g.peersToIndices lastPeer idx
               else g.peersToIndices
    let i2p := if idx ≠ tail then mapInsert g.indicesToPeers idx lastPeer
               else g.indicesToPeers
    let known1 := mapDelete g.knownPeers evicted
    let known2 := known1.map (fun e =>
      (e.1,
        (if idx ≠ tail then
           (if tail ∈ e.2 then insert idx e.2 else e.2.erase idx)
         else e.2).erase tail))
    ({ localBits := g.localBits.erase tail
       knownPeers := known2
       peersToIndices := mapDelete p2i evicted
       indicesToPeers := mapDelete i2p tail }, true)

/-- Look up every key in order, none as soon as one is missing (the loop
building the learned-indices bitset in UpdateKnown). -/
def lookupAll {β : Type} (m : List (ℕ × β)) : List ℕ → Option (List β)
  | [] => some []
  | a :: rest =>
    match mapLookup m a, lookupAll m rest with
    | some b, some bs => some (b :: bs)
    | _, _ => none

/-- GossipTracker.UpdateKnown: add learned peers to a known-peers bitset;
no mutation and a false result if the peer or any learned peer is untracked. -/
def GossipTracker.UpdateKnown (g : GossipTracker) (id : ℕ) (learned : List ℕ) :
    GossipTracker × Bool :=
  match mapLookup g.knownPeers id with
  | none => (g, false)
  | some known =>
    match lookupAll g.peersToIndices learned with
    | none => (g, false)
    | some idxs =>
      ({ g with knownPeers := mapInsert g.knownPeers id (known ∪ idxs.toFinset) }, true)

/-- GossipTracker.GetUnknown: the peers we have not sent to this peer.
The Go function returns (nil, false) on a non-positive limit or an untracked
peer, embedded here as none; otherwise it walks the difference bitset from the
least significant bit upward collecting at most limit node ids. -/
def GossipTracker.GetUnknown (g : GossipTracker) (id : ℕ) (limit : ℤ) :
    Option (List ℕ) :=
  if limit ≤ 0 then none
  else
    match mapLookup g.knownPeers id with
    | none => none
    | some known =>
      let unknown := g.localBits \ known
      let idxs := (List.range (bitsetLen unknown)).filter (fun i => decide (i ∈ unknown))
      some ((idxs.take limit.toNat).map (fun i => (mapLookup g.indicesToPeers i).getD 0))

/-- A public mutating operation on the gossip tracker. -/
inductive GossipOp where
  | add (id : ℕ)
  | remove (id : ℕ)
  | updateKnown (id : ℕ) (learned : List ℕ)

/-- Apply one mutating operation, discarding the boolean result. -/
def applyGossipOp (g : GossipTracker) : GossipOp → GossipTracker
  | .add id => (g.Add id).1
  | .remove id => (g.Remove id).1
  | .updateKnown id learned => (g.UpdateKnown id learned).1

/-- Apply a sequence of mutating operations from left to right. -/
def applyGossipOps (ops : List GossipOp) (g : GossipTracker) : GossipTracker :=
  ops.foldl applyGossipOp g

/-! ### Fee calculator (vms/platformvm/txs/fee/calculator.go)

The four complexity dimensions and the fee manager live in the components
fees package, which is not part of the analysed source subset; they are
modelled from the specification. The calculator visitor itself is translated
from calculator.go. Transaction metering depends on codec serialization
sizes, so the complexity of a transaction is an environment-supplied
function. The id of the primary network is the distinguished zero id. -/

def primaryNetworkID : ℕ := 0

/-- The tip denominator: a tip of one percent is encoded as 10000. -/
def tipDenominator : ℕ := 1000000

/-- The four fee dimensions: bandwidth, database reads, database writes,
compute. -/
structure Dimensions where
  bandwidth : ℕ
  dbRead : ℕ
  dbWrite : ℕ
  compute : ℕ
  deriving DecidableEq, Repr

/-- The all-zero complexity tuple (source: fees.Empty). -/
def Dimensions.empty : Dimensions := ⟨0, 0, 0, 0⟩

/-- Modelled from the spec: the fees.Manager of the components fees package
(not under the analysed sources) carries the per-dimension unit fees and the
cumulative complexity consumed so far in the block. -/
structure FeeManager where
  unitFees : Dimensions
  cumulatedComplexity : Dimensions
  deriving DecidableEq, Repr

/-- Modelled from the spec: fees.Manager.CalculateFee is the dot product of
unit fees and dimensions, scaled by one plus the tip percentage over the tip
denominator. -/
def FeeManager.calculateFee (fm : FeeManager) (x : Dimensions) (tip : ℕ) : ℕ :=
  (fm.unitFees.bandwidth * x.bandwidth + fm.unitFees.dbRead * x.dbRead +
      fm.unitFees.dbWrite * x.dbWrite + fm.unitFees.compute * x.compute) *
    (tipDenominator + tip) / tipDenominator

/-- Modelled from the spec: fees.Manager.CumulateComplexity adds the given
complexity to the cumulative complexity and fails, reporting the first
offending dimension, if any dimension of the sum exceeds the block cap. -/
def FeeManager.cumulateComplexity (fm : FeeManager) (x cap : Dimensions) :
    Except ℕ FeeManager :=
  let c := fm.cumulatedComplexity
  if cap.bandwidth < c.bandwidth + x.bandwidth then .error 0
  else if cap.dbRead < c.dbRead + x.dbRead then .error 1
  else if cap.dbWrite < c.dbWrite + x.dbWrite then .error 2
  else if cap.compute < c.compute + x.compute then .error 3
  else .ok { fm with cumulatedComplexity :=
    ⟨c.bandwidth + x.bandwidth, c.dbRead + x.dbRead,
     c.dbWrite + x.dbWrite, c.compute + x.compute⟩ }

/-- Modelled from the spec: fees.Manager.RemoveComplexity subtracts the given
complexity from the cumulative complexity, failing on underflow in any
dimension. -/
def FeeManager.removeComplexity (fm : FeeManager) (x : Dimensions) :
    Option FeeManager :=
  let c := fm.cumulatedComplexity
  if c.bandwidth < x.bandwidth ∨ c.dbRead < x.dbRead ∨
      c.dbWrite < x.dbWrite ∨ c.compute < x.compute then none
  else some { fm with cumulatedComplexity :=
    ⟨c.bandwidth - x.bandwidth, c.dbRead - x.dbRead,
     c.dbWrite - x.dbWrite, c.compute - x.compute⟩ }

/-- Errors surfaced by the fee calculator. -/
inductive FeeErr where
  | insufficientFees
  | blockCapacityExceeded (dimension : ℕ)
  | removeComplexityFailed
  deriving DecidableEq, Repr

/-- The static fee configuration consumed by the calculator (source:
StaticConfig; field names follow the uses in calculator.go). -/
structure StaticConfig where
  txFee : ℕ
  createAssetTxFee : ℕ
  createSubnetTxFee : ℕ
  transformSubnetTxFee : ℕ
  createBlockchainTxFee : ℕ
  addPrimaryNetworkValidatorFee : ℕ
  addPrimaryNetworkDelegatorFee : ℕ
  addSubnetValidatorFee : ℕ
  addSubnetDelegatorFee : ℕ
  deriving DecidableEq, Repr

/-- The calculator state (source struct: calculator). Chain time and the
Apricot-Phase-3 activation time stand in for the upgrade configuration; the
fork predicate is activation-time less-or-equal chain-time. -/
structure FeeCalculator where
  isEActive : Bool
  apricotPhase3Time : ℕ
  time : ℕ
  staticCfg : StaticConfig
  feeManager : Option FeeManager
  blockMaxComplexity : Dimensions
  tipPercentage : ℕ
  fee : ℕ
  deriving DecidableEq, Repr

/-- upgrade.Config.IsApricotPhase3Activated at the calculator chain time. -/
def FeeCalculator.isApricotPhase3Active (c : FeeCalculator) : Bool :=
  c.apricotPhase3Time ≤ c.time

/-- calculator.addFeesFor: cumulate complexity (failing if the block cap is
breached), then add the corresponding fee to the running fee. The running fee
is a 64-bit counter, so the addition wraps modulo 2 ^ 64. -/
def FeeCalculator.addFeesFor (c : FeeCalculator) (complexity : Dimensions) :
    Except FeeErr (ℕ × FeeCalculator) :=
  match c.feeManager with
  | none => .ok (0, c)
  | some fm =>
    if complexity = Dimensions.empty then .ok (0, c)
    else
      match fm.cumulateComplexity complexity c.blockMaxComplexity with
      | .error d => .error (.blockCapacityExceeded d)
      | .ok fm1 =>
        let fee := fm.calculateFee complexity c.tipPercentage % w64
        .ok (fee, { c with feeManager := some fm1, fee := (c.fee + fee) % w64 })

/-- calculator.removeFeesFor: remove complexity (failing on underflow), then
subtract the corresponding fee from the running fee, with 64-bit wrap-around
on the subtraction. -/
def FeeCalculator.removeFeesFor (c : FeeCalculator) (unitsToRm : Dimensions) :
    Except FeeErr (ℕ × FeeCalculator) :=
  match c.feeManager with
  | none => .ok (0, c)
  | some fm =>
    if unitsToRm = Dimensions.empty then .ok (0, c)
    else
      match fm.removeComplexity unitsToRm with
      | none => .error .removeComplexityFailed
      | some fm1 =>
        let fee := fm.calculateFee unitsToRm c.tipPercentage % w64
        .ok (fee, { c with feeManager := some fm1, fee := (c.fee + (w64 - fee)) % w64 })

/-- Calculator.CalculateTipPercentage: fails when the fees paid are below the
required fee; succeeds without touching the stored tip when the required fee
is zero; otherwise stores (paid - required) * tipDenominator / required,
where the multiplication is 64-bit and wraps modulo 2 ^ 64. The final
tip-percentage validation step lives outside the analysed sources and is
modelled from the spec as always succeeding. -/
def FeeCalculator.calculateTipPercentage (c : FeeCalculator) (feesPaid : ℕ) :
    Except FeeErr FeeCalculator :=
  if feesPaid < c.fee then .error .insufficientFees
  else if c.fee = 0 then .ok c
  else .ok { c with tipPercentage := (feesPaid - c.fee) * tipDenominator % w64 / c.fee }

/-- The unsigned platform transaction variants, with the payload fields the
fee calculator inspects. -/
inductive PTx where
  | addValidatorTx
  | addSubnetValidatorTx
  | addDelegatorTx
  | createChainTx
  | createSubnetTx
  | advanceTimeTx
  | rewardValidatorTx
  | removeSubnetValidatorTx
  | transformSubnetTx
  | transferSubnetOwnershipTx
  | addPermissionlessValidatorTx (subnet : ℕ)
  | addPermissionlessDelegatorTx (subnet : ℕ)
  | baseTx
  | importTx
  | exportTx
  deriving DecidableEq, Repr

/-- The dynamic-fee path shared by the post-E-upgrade visitor branches:
meter the transaction and cumulate its fees. -/
def FeeCalculator.dynamicPath (c : FeeCalculator) (meter : PTx → Dimensions)
    (tx : PTx) : Except FeeErr FeeCalculator :=
  (c.addFeesFor (meter tx)).map (·.2)

/-- The fee-calculator visitor (calculator.AddValidatorTx and friends):
each branch sets the static fee before the E upgrade and follows the dynamic
path after it. AddValidatorTx and AddDelegatorTx are banned after Durango, so
they always use the static fee; AdvanceTimeTx and RewardValidatorTx carry no
fee. The metering function is environment-supplied because it depends on
codec serialization sizes. -/
def FeeCalculator.visit (c : FeeCalculator) (meter : PTx → Dimensions) :
    PTx → Except FeeErr FeeCalculator
  | .addValidatorTx => .ok { c with fee := c.staticCfg.addPrimaryNetworkValidatorFee }
  | .addDelegatorTx => .ok { c with fee := c.staticCfg.addPrimaryNetworkDelegatorFee }
  | .advanceTimeTx => .ok { c with fee := 0 }
  | .rewardValidatorTx => .ok { c with fee := 0 }
  | .addSubnetValidatorTx =>
    if !c.isEActive then .ok { c with fee := c.staticCfg.addSubnetValidatorFee }
    else c.dynamicPath meter .addSubnetValidatorTx
  | .createChainTx =>
    if !c.isEActive then
      .ok { c with fee :=
        if c.isApricotPhase3Active then c.staticCfg.createBlockchainTxFee
        else c.staticCfg.createAssetTxFee }
    else c.dynamicPath meter .createChainTx
  | .createSubnetTx =>
    if !c.isEActive then
      .ok { c with fee :=
        if c.isApricotPhase3Active then c.staticCfg.createSubnetTxFee
        else c.staticCfg.createAssetTxFee }
    else c.dynamicPath meter .createSubnetTx
  | .removeSubnetValidatorTx =>
    if !c.isEActive then .ok { c with fee := c.staticCfg.txFee }
    else c.dynamicPath meter .removeSubnetValidatorTx
  | .transformSubnetTx =>
    if !c.isEActive then .ok { c with fee := c.staticCfg.transformSubnetTxFee }
    else c.dynamicPath meter .transformSubnetTx
  | .transferSubnetOwnershipTx =>
    if !c.isEActive then .ok { c with fee := c.staticCfg.txFee }
    else c.dynamicPath meter .transferSubnetOwnershipTx
  | .addPermissionlessValidatorTx subnet =>
    if !c.isEActive then
      .ok { c with fee :=
        if subnet ≠ primaryNetworkID then c.staticCfg.addSubnetValidatorFee
        else c.staticCfg.createAssetTxFee }
    else c.dynamicPath meter (.addPermissionlessValidatorTx subnet)
  | .addPermissionlessDelegatorTx subnet =>
    if !c.isEActive then
      .ok { c with fee :=
        if subnet ≠ primaryNetworkID then c.staticCfg.addSubnetDelegatorFee
        else c.staticCfg.addPrimaryNetworkDelegatorFee }
    else c.dynamicPath meter (.addPermissionlessDelegatorTx subnet)
  | .baseTx =>
    if !c.isEActive then .ok { c with fee := c.staticCfg.txFee }
    else c.dynamicPath meter .baseTx
  | .importTx =>
    if !c.isEActive then .ok { c with fee := c.staticCfg.txFee }
    else c.dynamicPath meter .importTx
  | .exportTx =>
    if !c.isEActive then .ok { c with fee := c.staticCfg.txFee }
    else c.dynamicPath meter .exportTx

/-! ### Staker transaction verification
(vms/platformvm/txs/executor/staker_tx_verification.go)

Timestamps are natural numbers of seconds. External collaborators that are
out of the analysed scope (syntactic verification of the signed envelope, the
flow checker, subnet authorization, the state canDelegate helper) are
environment-supplied boolean outcomes carried by the backend and the chain
state; the verifiers below are translated branch by branch from the source
with those outcomes in place of the calls. -/

/-- The error kinds surfaced by staker verification and execution. -/
inductive TxErr where
  | syntacticFailed
  | weightTooSmall
  | weightTooLarge
  | insufficientDelegationFee
  | stakeTooShort
  | stakeTooLong
  | flowCheckFailed
  | futureStakeTime
  | validatorSubset
  | notValidator
  | stakeOverflow
  | overDelegated
  | timestampNotBeforeStartTime
  | alreadyValidator
  | duplicateValidator
  | delegateToPermissionedValidator
  | wrongStakedAssetID
  | unauthorizedStakerStopping
  | subnetAuthFailed
  | notFound
  | wrongFork
  | missingValidator
  deriving DecidableEq, Repr

/-- MaxValidatorWeightFactor (executor package constant). -/
def MaxValidatorWeightFactor : ℕ := 5

/-- MaxFutureStartTime: 24 hours, in seconds. -/
def MaxFutureStartTime : ℕ := 86400

/-- utils/math Mul64: 64-bit multiplication, none on overflow. -/
def mul64 (a b : ℕ) : Option ℕ :=
  if a * b < w64 then some (a * b) else none

/-- The platform configuration fields read by the staker verifiers. Fork
activation is the comparison of the activation timestamp with the queried
chain time. -/
structure PlatformConfig where
  minValidatorStake : ℕ
  maxValidatorStake : ℕ
  minDelegatorStake : ℕ
  minDelegationFee : ℕ
  minStakeDuration : ℕ
  maxStakeDuration : ℕ
  continuousStakingTime : ℕ
  apricotPhase3Time : ℕ

/-- Config.IsContinuousStakingActivated. -/
def PlatformConfig.isContinuousStakingActivated (cfg : PlatformConfig) (t : ℕ) : Bool :=
  cfg.continuousStakingTime ≤ t

/-- Config.IsApricotPhase3Activated. -/
def PlatformConfig.isApricotPhase3Activated (cfg : PlatformConfig) (t : ℕ) : Bool :=
  cfg.apricotPhase3Time ≤ t

/-- The staker record data returned by GetValidator that the verifiers
inspect. -/
structure StakerInfo where
  weight : ℕ
  startTime : ℕ
  endTime : ℕ
  priorityIsPermissionedValidator : Bool
  deriving DecidableEq, Repr

/-- The per-subnet validator rules (source struct: addValidatorRules). -/
structure ValidatorRules where
  assetID : ℕ
  minValidatorStake : ℕ
  maxValidatorStake : ℕ
  minStakeDuration : ℕ
  maxStakeDuration : ℕ
  minDelegationFee : ℕ
  deriving DecidableEq, Repr

/-- The per-subnet delegator rules (source struct: addDelegatorRules). -/
structure DelegatorRules where
  assetID : ℕ
  minDelegatorStake : ℕ
  maxValidatorStake : ℕ
  minStakeDuration : ℕ
  maxStakeDuration : ℕ
  maxValidatorWeightFactor : ℕ
  deriving DecidableEq, Repr

/-- The chain-state surface the staker verifiers read. getValidator takes the
subnet id then the node id and models executor.GetValidator over current and
pending validators (none embeds the not-found result). The rules getters
model GetSubnetTransformation followed by the field projection in
getValidatorRules and getDelegatorRules. canDelegate abstracts the state
canDelegate helper (outside the analysed sources) as a function of the
maximum-weight bound the verifier hands it, which is the datum the claims
are about. -/
structure PChainState where
  timestamp : ℕ
  getValidator : ℕ → ℕ → Option StakerInfo
  getSubnetValidatorRules : ℕ → Option ValidatorRules
  getSubnetDelegatorRules : ℕ → Option DelegatorRules
  canDelegate : ℕ → Bool

/-- The executor backend: configuration plus the environment-supplied
outcomes of the external collaborators. -/
structure Backend where
  config : PlatformConfig
  avaxAssetID : ℕ
  bootstrapped : Bool
  syntacticOk : Bool
  flowCheckOk : Bool
  subnetAuthOk : Bool
  stopAuthOk : Bool

/-- Modelled from the spec: txs.BoundedBy holds when the staker interval is
fully contained in the primary-network validation interval. -/
def boundedBy (s e ps pe : ℕ) : Bool :=
  ps ≤ s && e ≤ pe

/-- getValidatorRules: platform configuration for the primary network, the
recorded subnet transformation otherwise. -/
def getValidatorRules (b : Backend) (cs : PChainState) (subnetID : ℕ) :
    Except TxErr ValidatorRules :=
  if subnetID = primaryNetworkID then
    .ok { assetID := b.avaxAssetID
          minValidatorStake := b.config.minValidatorStake
          maxValidatorStake := b.config.maxValidatorStake
          minStakeDuration := b.config.minStakeDuration
          maxStakeDuration := b.config.maxStakeDuration
          minDelegationFee := b.config.minDelegationFee }
  else
    match cs.getSubnetValidatorRules subnetID with
    | none => .error .notFound
    | some r => .ok r

/-- getDelegatorRules: platform configuration for the primary network, the
recorded subnet transformation otherwise. -/
def getDelegatorRules (b : Backend) (cs : PChainState) (subnetID : ℕ) :
    Except TxErr DelegatorRules :=
  if subnetID = primaryNetworkID then
    .ok { assetID := b.avaxAssetID
          minDelegatorStake := b.config.minDelegatorStake
          maxValidatorStake := b.config.maxValidatorStake
          minStakeDuration := b.config.minStakeDuration
          maxStakeDuration := b.config.maxStakeDuration
          maxValidatorWeightFactor := MaxValidatorWeightFactor }
  else
    match cs.getSubnetDelegatorRules subnetID with
    | none => .error .notFound
    | some r => .ok r

/-- AddValidatorTx: the fields verifyAddValidatorTx reads. The staking period
is the accessor StakingPeriod of the transaction. -/
structure AddValidatorTx where
  nodeID : ℕ
  wght : ℕ
  delegationShares : ℕ
  startTime : ℕ
  stakingPeriod : ℕ

/-- verifyAddValidatorTx, translated branch by branch. The returned outputs
slice is not inspected by any claim and is embedded as Unit. -/
def verifyAddValidatorTx (b : Backend) (cs : PChainState) (tx : AddValidatorTx) :
    Except TxErr Unit :=
  if !b.syntacticOk then .error .syntacticFailed
  else if tx.wght < b.config.minValidatorStake then .error .weightTooSmall
  else if b.config.maxValidatorStake < tx.wght then .error .weightTooLarge
  else if tx.delegationShares < b.config.minDelegationFee then .error .insufficientDelegationFee
  else if tx.stakingPeriod < b.config.minStakeDuration then .error .stakeTooShort
  else if b.config.maxStakeDuration < tx.stakingPeriod then .error .stakeTooLong
  else if !b.bootstrapped then .ok ()
  else
    let currentTimestamp := cs.timestamp
    let isCS := b.config.isContinuousStakingActivated currentTimestamp
    if !isCS ∧ ¬(currentTimestamp < tx.startTime) then .error .timestampNotBeforeStartTime
    else if (cs.getValidator primaryNetworkID tx.nodeID).isSome then .error .alreadyValidator
    else if !b.flowCheckOk then .error .flowCheckFailed
    else if !isCS ∧ currentTimestamp + MaxFutureStartTime < tx.startTime then
      .error .futureStakeTime
    else .ok ()

/-- AddSubnetValidatorTx: the fields verifyAddSubnetValidatorTx reads. -/
structure AddSubnetValidatorTx where
  nodeID : ℕ
  subnet : ℕ
  startTime : ℕ
  endTime : ℕ
  stakingPeriod : ℕ

/-- verifyAddSubnetValidatorTx, translated branch by branch. -/
def verifyAddSubnetValidatorTx (b : Backend) (cs : PChainState)
    (tx : AddSubnetValidatorTx) : Except TxErr Unit :=
  if !b.syntacticOk then .error .syntacticFailed
  else if tx.stakingPeriod < b.config.minStakeDuration then .error .stakeTooShort
  else if b.config.maxStakeDuration < tx.stakingPeriod then .error .stakeTooLong
  else if !b.bootstrapped then .ok ()
  else
    let currentTimestamp := cs.timestamp
    let isCS := b.config.isContinuousStakingActivated currentTimestamp
    if !isCS ∧ ¬(currentTimestamp < tx.startTime) then .error .timestampNotBeforeStartTime
    else if (cs.getValidator tx.subnet tx.nodeID).isSome then .error .duplicateValidator
    else
      match cs.getValidator primaryNetworkID tx.nodeID with
      | none => .error .notValidator
      | some primaryNetworkValidator =>
        let stakerStart := if !isCS then tx.startTime else currentTimestamp
        let stakerEnd := if !isCS then tx.endTime else currentTimestamp + tx.stakingPeriod
        if !boundedBy stakerStart stakerEnd
            primaryNetworkValidator.startTime primaryNetworkValidator.endTime then
          .error .validatorSubset
        else if !b.subnetAuthOk then .error .subnetAuthFailed
        else if !b.flowCheckOk then .error .flowCheckFailed
        else if !isCS ∧ currentTimestamp + MaxFutureStartTime < tx.startTime then
          .error .futureStakeTime
        else .ok ()

/-- AddDelegatorTx: the fields verifyAddDelegatorTx reads. -/
structure AddDelegatorTx where
  nodeID : ℕ
  wght : ℕ
  startTime : ℕ
  stakingPeriod : ℕ

/-- The maximum-weight bound of verifyAddDelegatorTx (source lines 423-430):
Mul64 of the factor and the validator weight, failing with the stake-overflow
error on 64-bit overflow, then capped by the maximum validator stake only
when Apricot Phase 3 is active at the current chain time. -/
def addDelegatorMaximumWeight (cfg : PlatformConfig) (currentTimestamp : ℕ)
    (validatorWeight : ℕ) : Except TxErr ℕ :=
  match mul64 MaxValidatorWeightFactor validatorWeight with
  | none => .error .stakeOverflow
  | some mw =>
    .ok (if cfg.isApricotPhase3Activated currentTimestamp then
           min mw cfg.maxValidatorStake
         else mw)

/-- verifyAddDelegatorTx, translated branch by branch; returns the primary
validator end time on success. -/
def verifyAddDelegatorTx (b : Backend) (cs : PChainState) (tx : AddDelegatorTx) :
    Except TxErr ℕ :=
  if !b.syntacticOk then .error .syntacticFailed
  else if tx.stakingPeriod < b.config.minStakeDuration then .error .stakeTooShort
  else if b.config.maxStakeDuration < tx.stakingPeriod then .error .stakeTooLong
  else if tx.wght < b.config.minDelegatorStake then .error .weightTooSmall
  else
    match cs.getValidator primaryNetworkID tx.nodeID with
    | none => .error .notValidator
    | some primaryNetworkValidator =>
      if !b.bootstrapped then .ok primaryNetworkValidator.endTime
      else
        let currentTimestamp := cs.timestamp
        let isCS := b.config.isContinuousStakingActivated currentTimestamp
        if !isCS ∧ ¬(currentTimestamp < tx.startTime) then .error .timestampNotBeforeStartTime
        else
          match addDelegatorMaximumWeight b.config currentTimestamp
              primaryNetworkValidator.weight with
          | .error e => .error e
          | .ok maximumWeight =>
            if !(cs.canDelegate maximumWeight) then .error .overDelegated
            else if !b.flowCheckOk then .error .flowCheckFailed
            else if !isCS ∧ currentTimestamp + MaxFutureStartTime < tx.startTime then
              .error .futureStakeTime
            else .ok primaryNetworkValidator.endTime

/-- AddPermissionlessValidatorTx: the fields the verifier reads. The staked
asset id is the asset of the first stake output. -/
structure AddPermissionlessValidatorTx where
  nodeID : ℕ
  subnet : ℕ
  wght : ℕ
  delegationShares : ℕ
  startTime : ℕ
  endTime : ℕ
  stakingPeriod : ℕ
  stakedAssetID : ℕ

/-- verifyAddPermissionlessValidatorTx, translated branch by branch. -/
def verifyAddPermissionlessValidatorTx (b : Backend) (cs : PChainState)
    (tx : AddPermissionlessValidatorTx) : Except TxErr Unit :=
  if !b.syntacticOk then .error .syntacticFailed
  else if !b.bootstrapped then .ok ()
  else
    let currentTimestamp := cs.timestamp
    let isCS := b.config.isContinuousStakingActivated currentTimestamp
    if !isCS ∧ ¬(currentTimestamp < tx.startTime) then .error .timestampNotBeforeStartTime
    else
      match getValidatorRules b cs tx.subnet with
      | .error e => .error e
      | .ok validatorRules =>
        if tx.wght < validatorRules.minValidatorStake then .error .weightTooSmall
        else if validatorRules.maxValidatorStake < tx.wght then .error .weightTooLarge
        else if tx.delegationShares < validatorRules.minDelegationFee then
          .error .insufficientDelegationFee
        else if tx.stakingPeriod < validatorRules.minStakeDuration then .error .stakeTooShort
        else if validatorRules.maxStakeDuration < tx.stakingPeriod then .error .stakeTooLong
        else if tx.stakedAssetID ≠ validatorRules.assetID then .error .wrongStakedAssetID
        else if (cs.getValidator tx.subnet tx.nodeID).isSome then .error .duplicateValidator
        else
          let primaryCheck : Except TxErr Unit :=
            if tx.subnet ≠ primaryNetworkID then
              match cs.getValidator primaryNetworkID tx.nodeID with
              | none => .error .notValidator
              | some primaryNetworkValidator =>
                let stakerStart := if !isCS then tx.startTime else currentTimestamp
                let stakerEnd :=
                  if !isCS then tx.endTime else currentTimestamp + tx.stakingPeriod
                if !boundedBy stakerStart stakerEnd
                    primaryNetworkValidator.startTime primaryNetworkValidator.endTime then
                  .error .validatorSubset
                else .ok ()
            else .ok ()
          match primaryCheck with
          | .error e => .error e
          | .ok _ =>
            if !b.flowCheckOk then .error .flowCheckFailed
            else if !isCS ∧ currentTimestamp + MaxFutureStartTime < tx.startTime then
              .error .futureStakeTime
            else .ok ()

/-- AddPermissionlessDelegatorTx: the fields the verifier reads. -/
structure AddPermissionlessDelegatorTx where
  nodeID : ℕ
  subnet : ℕ
  wght : ℕ
  startTime : ℕ
  stakingPeriod : ℕ
  stakedAssetID : ℕ

/-- The maximum-weight bound of verifyAddPermissionlessDelegatorTx (source
lines 756-763): Mul64 of the subnet factor and the validator weight,
saturating to the largest 64-bit value on overflow, then capped by the
maximum validator stake of the subnet rules. -/
def permissionlessDelegatorMaximumWeight (factor validatorWeight maxValidatorStake : ℕ) : ℕ :=
  let mw := match mul64 factor validatorWeight with
    | none => w64 - 1
    | some v => v
  min mw maxValidatorStake

/-- verifyAddPermissionlessDelegatorTx, translated branch by branch; returns
the validator end time on success. -/
def verifyAddPermissionlessDelegatorTx (b : Backend) (cs : PChainState)
    (tx : AddPermissionlessDelegatorTx) : Except TxErr ℕ :=
  if !b.syntacticOk then .error .syntacticFailed
  else
    match cs.getValidator tx.subnet tx.nodeID with
    | none => .error .notValidator
    | some validator =>
      if !b.bootstrapped then .ok validator.endTime
      else
        let currentTimestamp := cs.timestamp
        let isCS := b.config.isContinuousStakingActivated currentTimestamp
        if !isCS ∧ ¬(currentTimestamp < tx.startTime) then .error .timestampNotBeforeStartTime
        else
          match getDelegatorRules b cs tx.subnet with
          | .error e => .error e
          | .ok delegatorRules =>
            if tx.wght < delegatorRules.minDelegatorStake then .error .weightTooSmall
            else if tx.stakingPeriod < delegatorRules.minStakeDuration then .error .stakeTooShort
            else if delegatorRules.maxStakeDuration < tx.stakingPeriod then .error .stakeTooLong
            else if tx.stakedAssetID ≠ delegatorRules.assetID then .error .wrongStakedAssetID
            else
              let maximumWeight := permissionlessDelegatorMaximumWeight
                delegatorRules.maxValidatorWeightFactor validator.weight
                delegatorRules.maxValidatorStake
              if !(cs.canDelegate maximumWeight) then .error .overDelegated
              else if tx.subnet ≠ primaryNetworkID ∧
                  validator.priorityIsPermissionedValidator then
                .error .delegateToPermissionedValidator
              else if !b.flowCheckOk then .error .flowCheckFailed
              else if !isCS ∧ currentTimestamp + MaxFutureStartTime < tx.startTime then
                .error .futureStakeTime
              else .ok validator.endTime

/-! ### Staker insertion and staker stopping
(vms/platformvm/txs/executor/standard_tx_executor.go) -/

/-- Staker priorities (txs package). Current priorities mark stakers in the
current set, pending ones stakers in the pending set. -/
inductive Priority where
  | subnetPermissionedValidatorCurrent
  | subnetPermissionlessValidatorCurrent
  | subnetPermissionlessDelegatorCurrent
  | primaryNetworkValidatorCurrent
  | primaryNetworkDelegatorCurrent
  | subnetPermissionedValidatorPending
  | subnetPermissionlessValidatorPending
  | subnetPermissionlessDelegatorPending
  | primaryNetworkValidatorPending
  | primaryNetworkDelegatorPending
  deriving DecidableEq, Repr

/-- Priority.IsCurrentValidator. -/
def Priority.isCurrentValidator : Priority → Bool
  | .subnetPermissionedValidatorCurrent
  | .subnetPermissionlessValidatorCurrent
  | .primaryNetworkValidatorCurrent => true
  | _ => false

/-- Priority.IsCurrentDelegator. -/
def Priority.isCurrentDelegator : Priority → Bool
  | .subnetPermissionlessDelegatorCurrent
  | .primaryNetworkDelegatorCurrent => true
  | _ => false

/-- Priority.IsPendingValidator. -/
def Priority.isPendingValidator : Priority → Bool
  | .subnetPermissionedValidatorPending
  | .subnetPermissionlessValidatorPending
  | .primaryNetworkValidatorPending => true
  | _ => false

/-- Priority.IsPendingDelegator. -/
def Priority.isPendingDelegator : Priority → Bool
  | .subnetPermissionlessDelegatorPending
  | .primaryNetworkDelegatorPending => true
  | _ => false

/-- Priority.IsValidator. -/
def Priority.isValidator (p : Priority) : Bool :=
  p.isCurrentValidator || p.isPendingValidator

/-- The staker-transaction surface addStakerFromStakerTx reads (txs.Staker
interface): subnet, weight, staking period, and the priorities the state
constructors derive the staker priority from. -/
structure StakerTx where
  subnetID : ℕ
  weight : ℕ
  stakingPeriod : ℕ
  currentPriority : Priority
  pendingPriority : Priority

/-- The state-diff insertion path selected by the final dispatch of
addStakerFromStakerTx. -/
inductive PutTarget where
  | putCurrentValidator
  | putCurrentDelegator
  | putPendingValidator
  | putPendingDelegator
  deriving DecidableEq, Repr

/-- The observable effect of addStakerFromStakerTx: which insertion path ran,
with which staker priority, the potential reward granted, and the updated
current supply when the supply was written. -/
structure AddStakerResult where
  target : PutTarget
  priority : Priority
  potentialReward : ℕ
  updatedSupply : Option ℕ
  deriving DecidableEq, Repr

/-- The dispatch switch at the end of addStakerFromStakerTx (source lines
569-578). -/
def putDispatch (p : Priority) : PutTarget :=
  if p.isCurrentValidator then .putCurrentValidator
  else if p.isCurrentDelegator then .putCurrentDelegator
  else if p.isPendingValidator then .putPendingValidator
  else .putPendingDelegator

/-- addStakerFromStakerTx. Before the continuous-staking fork (at the given
chain time) the staker is built by NewPendingStaker and carries the pending
priority of the transaction; after the fork it is built by NewCurrentStaker
with the current priority, and for every reward-bearing variant (everything
except a permissioned subnet validator) the potential reward is computed from
the staking duration, weight and current supply, and the supply is advanced
by it. The state constructors NewPendingStaker and NewCurrentStaker are
outside the analysed sources; following the spec, they yield a staker whose
priority is the pending (resp. current) priority of the transaction. The
reward calculator is environment-supplied. -/
def addStakerFromStakerTx (cfg : PlatformConfig) (chainTime : ℕ)
    (currentSupply : ℕ) (rewardCalculate : ℕ → ℕ → ℕ → ℕ)
    (stakerTx : StakerTx) : AddStakerResult :=
  if !(cfg.isContinuousStakingActivated chainTime) then
    let priority := stakerTx.pendingPriority
    { target := putDispatch priority, priority := priority
      potentialReward := 0, updatedSupply := none }
  else
    let potentialReward :=
      if stakerTx.currentPriority ≠ Priority.subnetPermissionedValidatorCurrent then
        rewardCalculate stakerTx.stakingPeriod stakerTx.weight currentSupply
      else 0
    let updatedSupply :=
      if stakerTx.currentPriority ≠ Priority.subnetPermissionedValidatorCurrent then
        some (currentSupply + potentialReward)
      else none
    let priority := stakerTx.currentPriority
    { target := putDispatch priority, priority := priority
      potentialReward := potentialReward, updatedSupply := updatedSupply }

/-- A current staker as the stop-staker path sees it. -/
structure CStaker where
  txID : ℕ
  nodeID : ℕ
  subnetID : ℕ
  priorityIsValidator : Bool
  earliestStopTime : ℕ
  deriving DecidableEq, Repr

/-- The chain-state surface of the stop-staker path: the chain time and the
current stakers in iterator order. -/
structure StopChainState where
  timestamp : ℕ
  currentStakers : List CStaker

/-- verifyStopStakerTx, translated branch by branch: requires the
continuous-staking fork, locates the staker with the given transaction id
among the current stakers, runs authorization and flow checks when
bootstrapped, and returns the stakers to stop together with the earliest-stop
time of the located staker. A primary-network validator drags along every
other current staker with the same node id. -/
def verifyStopStakerTx (b : Backend) (cs : StopChainState) (txID : ℕ) :
    Except TxErr (List CStaker × ℕ) :=
  if !(b.config.isContinuousStakingActivated cs.timestamp) then .error .wrongFork
  else if !b.syntacticOk then .error .syntacticFailed
  else
    match cs.currentStakers.find? (fun s => s.txID == txID) with
    | none => .error .notFound
    | some stakerToStop =>
      if b.bootstrapped ∧ ¬b.stopAuthOk then .error .unauthorizedStakerStopping
      else if b.bootstrapped ∧ ¬b.flowCheckOk then .error .flowCheckFailed
      else if ¬(stakerToStop.priorityIsValidator ∧
          stakerToStop.subnetID = primaryNetworkID) then
        .ok ([stakerToStop], stakerToStop.earliestStopTime)
      else
        .ok (stakerToStop ::
              cs.currentStakers.filter (fun s =>
                s.nodeID == stakerToStop.nodeID && s.txID != stakerToStop.txID),
             stakerToStop.earliestStopTime)

/-- Modelled from the spec: state.MarkStakerForRemovalInPlaceBeforeTime
(outside the analysed sources) sets the earliest-stop time of the staker to
the given time. -/
def markStakerForRemovalInPlaceBeforeTime (s : CStaker) (t : ℕ) : CStaker :=
  { s with earliestStopTime := t }

/-- A staker write-back emitted by the stop-staker executor. -/
inductive DiffWrite where
  | updateCurrentValidator (s : CStaker)
  | updateCurrentDelegator (s : CStaker)
  deriving DecidableEq, Repr

/-- StandardTxExecutor.StopStakerTx: verify, then mark every returned staker
for removal at the returned stop time and write it back through the validator
or delegator update path according to its priority. -/
def stopStakerTxExecute (b : Backend) (cs : StopChainState) (txID : ℕ) :
    Except TxErr (List DiffWrite) :=
  match verifyStopStakerTx b cs txID with
  | .error e => .error e
  | .ok (stakers, stopTime) =>
    .ok (stakers.map (fun toStop =>
      let marked := markStakerForRemovalInPlaceBeforeTime toStop stopTime
      if marked.priorityIsValidator then DiffWrite.updateCurrentValidator marked
      else DiffWrite.updateCurrentDelegator marked))

/-! ### Validator manager (vms/platformvm/validators/manager.go)

Validator sets are association lists from node id to validator output. The
per-height weight and public-key diffs are stored behind the State interface
(ApplyValidatorWeightDiffs and ApplyValidatorPublicKeyDiffs, outside the
analysed sources); following the spec they apply one height at a time from
the start height down to the end height inclusive, so they are embedded as a
fold of an environment-supplied per-height step over the descending height
range. -/

/-- A validator-set entry (validators.GetValidatorOutput). -/
structure VOutput where
  weight : ℕ
  publicKey : Option ℕ
  deriving DecidableEq, Repr

/-- A validator set: node id to output. -/
abbrev VMap : Type := List (ℕ × VOutput)

/-- The heights from startH down to endH inclusive, in descending order;
empty when startH < endH. -/
def heightsDescending (startH endH : ℕ) : List ℕ :=
  (List.range' endH (startH + 1 - endH)).reverse

/-- Modelled from the spec: ApplyValidatorWeightDiffs and
ApplyValidatorPublicKeyDiffs mutate the working set by applying the recorded
diffs of each height from startH down to endH, one height at a time. -/
def applyValidatorDiffs (step : ℕ → VMap → VMap) (startH endH : ℕ) (v : VMap) : VMap :=
  (heightsDescending startH endH).foldl (fun acc h => step h acc) v

/-- The manager state: the height of the last accepted block, the current
in-memory primary and subnet validator sets, and the per-height diff steps
recorded in state. -/
structure ValidatorManagerState where
  currentHeight : ℕ
  primarySet : VMap
  subnetSet : VMap
  weightDiffStep : ℕ → VMap → VMap
  pkDiffStep : ℕ → VMap → VMap

/-- manager.makePrimaryNetworkValidatorSet: not-found when the target height
exceeds the current height, otherwise the current set with weight diffs and
then public-key diffs applied over the heights from currentHeight down to
targetHeight + 1. -/
def makePrimaryNetworkValidatorSet (m : ValidatorManagerState) (targetHeight : ℕ) :
    Except TxErr (VMap × ℕ) :=
  if m.currentHeight < targetHeight then .error .notFound
  else
    let lastDiffHeight := targetHeight + 1
    .ok (applyValidatorDiffs m.pkDiffStep m.currentHeight lastDiffHeight
          (applyValidatorDiffs m.weightDiffStep m.currentHeight lastDiffHeight
            m.primarySet),
         m.currentHeight)

/-- The public-key overlay loop of makeSubnetValidatorSet (source lines
366-378): copy the primary-network key onto every subnet entry, failing with
the missing-validator error when a subnet node has no primary entry. -/
def overlayPrimaryPublicKeys (primary : VMap) : VMap → Except TxErr VMap
  | [] => .ok []
  | e :: rest =>
    match mapLookup primary e.1 with
    | none => .error .missingValidator
    | some p =>
      match overlayPrimaryPublicKeys primary rest with
      | .error err => .error err
      | .ok rest2 => .ok ((e.1, { e.2 with publicKey := p.publicKey }) :: rest2)

/-- manager.makeSubnetValidatorSet: not-found when the target height exceeds
the current height, otherwise weight diffs over the descending height range,
the primary public-key overlay, then public-key diffs over the same range. -/
def makeSubnetValidatorSet (m : ValidatorManagerState) (targetHeight : ℕ) :
    Except TxErr (VMap × ℕ) :=
  if m.currentHeight < targetHeight then .error .notFound
  else
    let lastDiffHeight := targetHeight + 1
    let afterWeights := applyValidatorDiffs m.weightDiffStep m.currentHeight
      lastDiffHeight m.subnetSet
    match overlayPrimaryPublicKeys m.primarySet afterWeights with
    | .error e => .error e
    | .ok overlaid =>
      .ok (applyValidatorDiffs m.pkDiffStep m.currentHeight lastDiffHeight overlaid,
           m.currentHeight)

/-- A static fee configuration with pairwise distinct interesting fees, used
by concrete evaluations. -/
def sampleStaticConfig : StaticConfig :=
  { txFee := 1, createAssetTxFee := 5, createSubnetTxFee := 0,
    transformSubnetTxFee := 0, createBlockchainTxFee := 0,
    addPrimaryNetworkValidatorFee := 0, addPrimaryNetworkDelegatorFee := 4,
    addSubnetValidatorFee := 3, addSubnetDelegatorFee := 6 }

/-- A pre-E-upgrade calculator over the sample static configuration. -/
def samplePreECalc : FeeCalculator :=
  { isEActive := false, apricotPhase3Time := 0, time := 0,
    staticCfg := sampleStaticConfig,
    feeManager := none, blockMaxComplexity := Dimensions.empty,
    tipPercentage := 0, fee := 0 }

/-- A calculator with a required fee of four units, used by concrete
evaluations of the tip computation. -/
def sampleTipCalc : FeeCalculator := { samplePreECalc with fee := 4 }

/-- A post-E-upgrade calculator with unit fees one to four, an empty
accumulator, a uniform block cap of one hundred and a running fee of ten. -/
def sampleDynCalc : FeeCalculator :=
  { isEActive := true, apricotPhase3Time := 0, time := 0,
    staticCfg := sampleStaticConfig,
    feeManager := some { unitFees := ⟨1, 2, 3, 4⟩, cumulatedComplexity := ⟨0, 0, 0, 0⟩ },
    blockMaxComplexity := ⟨100, 100, 100, 100⟩,
    tipPercentage := 0, fee := 10 }

/-- The side conditions of verifyAddValidatorTx that are unrelated to the
start-time rule: every envelope, bound, uniqueness and flow check passes. -/
def addValidatorGates (b : Backend) (cs : PChainState) (tx : AddValidatorTx) : Prop :=
  b.syntacticOk = true ∧ b.bootstrapped = true ∧ b.flowCheckOk = true ∧
  ¬(tx.wght < b.config.minValidatorStake) ∧ ¬(b.config.maxValidatorStake < tx.wght) ∧
  ¬(tx.delegationShares < b.config.minDelegationFee) ∧
  ¬(tx.stakingPeriod < b.config.minStakeDuration) ∧
  ¬(b.config.maxStakeDuration < tx.stakingPeriod) ∧
  cs.getValidator primaryNetworkID tx.nodeID = none

/-- The side conditions of verifyAddSubnetValidatorTx unrelated to the
start-time rule, for primary validator record v. -/
def addSubnetValidatorGates (b : Backend) (cs : PChainState)
    (tx : AddSubnetValidatorTx) (v : StakerInfo) : Prop :=
  b.syntacticOk = true ∧ b.bootstrapped = true ∧ b.subnetAuthOk = true ∧
  b.flowCheckOk = true ∧
  ¬(tx.stakingPeriod < b.config.minStakeDuration) ∧
  ¬(b.config.maxStakeDuration < tx.stakingPeriod) ∧
  cs.getValidator tx.subnet tx.nodeID = none ∧
  cs.getValidator primaryNetworkID tx.nodeID = some v ∧
  boundedBy tx.startTime tx.endTime v.startTime v.endTime = true ∧
  boundedBy cs.timestamp (cs.timestamp + tx.stakingPeriod) v.startTime v.endTime = true

/-- The side conditions of verifyAddDelegatorTx unrelated to the start-time
rule, for primary validator record v. -/
def addDelegatorGates (b : Backend) (cs : PChainState)
    (tx : AddDelegatorTx) (v : StakerInfo) : Prop :=
  b.syntacticOk = true ∧ b.bootstrapped = true ∧ b.flowCheckOk = true ∧
  ¬(tx.stakingPeriod < b.config.minStakeDuration) ∧
  ¬(b.config.maxStakeDuration < tx.stakingPeriod) ∧
  ¬(tx.wght < b.config.minDelegatorStake) ∧
  cs.getValidator primaryNetworkID tx.nodeID = some v ∧
  MaxValidatorWeightFactor * v.weight < w64 ∧
  (∀ m, cs.canDelegate m = true)

/-- The side conditions of verifyAddPermissionlessValidatorTx unrelated to
the start-time rule, for resolved rules r. -/
def addPermissionlessValidatorGates (b : Backend) (cs : PChainState)
    (tx : AddPermissionlessValidatorTx) (r : ValidatorRules) : Prop :=
  b.syntacticOk = true ∧ b.bootstrapped = true ∧ b.flowCheckOk = true ∧
  getValidatorRules b cs tx.subnet = .ok r ∧
  ¬(tx.wght < r.minValidatorStake) ∧ ¬(r.maxValidatorStake < tx.wght) ∧
  ¬(tx.delegationShares < r.minDelegationFee) ∧
  ¬(tx.stakingPeriod < r.minStakeDuration) ∧ ¬(r.maxStakeDuration < tx.stakingPeriod) ∧
  tx.stakedAssetID = r.assetID ∧
  cs.getValidator tx.subnet tx.nodeID = none ∧
  (∀ v, cs.getValidator primaryNetworkID tx.nodeID = some v →
    boundedBy tx.startTime tx.endTime v.startTime v.endTime = true ∧
    boundedBy cs.timestamp (cs.timestamp + tx.stakingPeriod) v.startTime v.endTime = true) ∧
  (tx.subnet ≠ primaryNetworkID → (cs.getValidator primaryNetworkID tx.nodeID).isSome = true)

/-- The side conditions of verifyAddPermissionlessDelegatorTx unrelated to
the start-time rule, for validator record v and resolved rules r. -/
def addPermissionlessDelegatorGates (b : Backend) (cs : PChainState)
    (tx : AddPermissionlessDelegatorTx) (v : StakerInfo) (r : DelegatorRules) : Prop :=
  b.syntacticOk = true ∧ b.bootstrapped = true ∧ b.flowCheckOk = true ∧
  cs.getValidator tx.subnet tx.nodeID = some v ∧
  getDelegatorRules b cs tx.subnet = .ok r ∧
  ¬(tx.wght < r.minDelegatorStake) ∧
  ¬(tx.stakingPeriod < r.minStakeDuration) ∧ ¬(r.maxStakeDuration < tx.stakingPeriod) ∧
  tx.stakedAssetID = r.assetID ∧
  (∀ m, cs.canDelegate m = true) ∧
  (tx.subnet ≠ primaryNetworkID → v.priorityIsPermissionedValidator = false)

/-- The fork-gated outcome of an Add* staking verifier when every side
condition passes: before the continuous-staking fork a start time not after
the chain time is a timestamp error and a start time more than the bound
ahead is a future-stake error, and otherwise, and always after the fork, the
verifier succeeds with the given result. -/
def startTimeGatedResult (b : Backend) (cs : PChainState) (startTime : ℕ)
    (res : Except TxErr ℕ) : Except TxErr ℕ :=
  if b.config.isContinuousStakingActivated cs.timestamp = false ∧
      startTime ≤ cs.timestamp then
    .error .timestampNotBeforeStartTime
  else if b.config.isContinuousStakingActivated cs.timestamp = false ∧
      cs.timestamp + MaxFutureStartTime < startTime then
    .error .futureStakeTime
  else res

/-- Like startTimeGatedResult but for verifiers returning no value. -/
def startTimeGatedResultU (b : Backend) (cs : PChainState) (startTime : ℕ)
    (res : Except TxErr Unit) : Except TxErr Unit :=
  if b.config.isContinuousStakingActivated cs.timestamp = false ∧
      startTime ≤ cs.timestamp then
    .error .timestampNotBeforeStartTime
  else if b.config.isContinuousStakingActivated cs.timestamp = false ∧
      cs.timestamp + MaxFutureStartTime < startTime then
    .error .futureStakeTime
  else res

/-- A chain state tracking no validators. -/
def emptyChainState : PChainState :=
  { timestamp := 100, getValidator := fun _ _ => none,
    getSubnetValidatorRules := fun _ => none, getSubnetDelegatorRules := fun _ => none,
    canDelegate := fun _ => true }

/-- A platform configuration used by concrete evaluations: the
continuous-staking fork is far in the future and Apricot Phase 3 is active
from time zero. -/
def sampleConfig : PlatformConfig :=
  { minValidatorStake := 1, maxValidatorStake := 1000000, minDelegatorStake := 1,
    minDelegationFee := 0, minStakeDuration := 1, maxStakeDuration := 1000000,
    continuousStakingTime := 1000000000, apricotPhase3Time := 0 }

/-- A backend whose external collaborators all succeed, over the sample
configuration. -/
def sampleBackend : Backend :=
  { config := sampleConfig, avaxAssetID := 0, bootstrapped := true,
    syntacticOk := true, flowCheckOk := true, subnetAuthOk := true, stopAuthOk := true }

/-- A chain state whose primary validator has weight 2 ^ 62, so that five
times its weight overflows a 64-bit integer. -/
def overflowChainState : PChainState :=
  { timestamp := 100,
    getValidator := fun _ _ =>
      some { weight := 2 ^ 62, startTime := 0, endTime := 100000000,
             priorityIsPermissionedValidator := false },
    getSubnetValidatorRules := fun _ => none,
    getSubnetDelegatorRules := fun _ => none,
    canDelegate := fun _ => true }

/-- A primary-network validator being stopped, used by concrete evaluations. -/
def stopValidator : CStaker :=
  { txID := 1, nodeID := 7, subnetID := 0, priorityIsValidator := true,
    earliestStopTime := 500 }

/-- A delegator on the same node as stopValidator. -/
def stopDelegator : CStaker :=
  { txID := 2, nodeID := 7, subnetID := 0, priorityIsValidator := false,
    earliestStopTime := 600 }

/-- A primary validator on a different node. -/
def otherValidator : CStaker :=
  { txID := 3, nodeID := 8, subnetID := 0, priorityIsValidator := true,
    earliestStopTime := 700 }

/-- A subnet validator sharing the node of stopValidator. -/
def subnetSharingValidator : CStaker :=
  { txID := 4, nodeID := 7, subnetID := 5, priorityIsValidator := true,
    earliestStopTime := 800 }

/-- A stop-staker chain state after the continuous-staking fork of the sample
configuration, holding the four stakers above. -/
def sampleStopState : StopChainState :=
  { timestamp := 2000000000,
    currentStakers := [stopValidator, stopDelegator, otherValidator,
      subnetSharingValidator] }

/-- A validator manager state with identity diff steps, used by concrete
evaluations. -/
def sampleManager : ValidatorManagerState :=
  { currentHeight := 5, primarySet := [(1, ⟨10, none⟩)], subnetSet := [(1, ⟨3, none⟩)],
    weightDiffStep := fun _ v => v, pkDiffStep := fun _ v => v }

/-- Well-formedness of a gossip tracker: the peer-to-index keys are distinct,
the tracked-peer sets of knownPeers and peersToIndices agree, the two index
maps are mutually inverse, the assigned indices are below the tracked count
and every index below the count is assigned, the local bitset is exactly the
indices below the count, and every known-peers bitset only holds indices
below the count. -/
structure TrackerWF (g : GossipTracker) : Prop where
  p2iNodup : (g.peersToIndices.map Prod.fst).Nodup
  knownKeys : ∀ p, (mapLookup g.knownPeers p).isSome = (mapLookup g.peersToIndices p).isSome
  coherent : ∀ p i, mapLookup g.peersToIndices p = some i ↔ mapLookup g.indicesToPeers i = some p
  idxLt : ∀ p i, mapLookup g.peersToIndices p = some i → i < g.peersToIndices.length
  i2pDom : ∀ i, (mapLookup g.indicesToPeers i).isSome ↔ i < g.peersToIndices.length
  localEq : g.localBits = Finset.range g.peersToIndices.length
  knownSub : ∀ p bs, mapLookup g.knownPeers p = some bs → ∀ j ∈ bs, j < g.peersToIndices.length

/-! ## Theorems -/

theorem mapDelete_nil {β : Type} (k : ℕ) : mapDelete ([] : List (ℕ × β)) k = [] := rfl

theorem mapDelete_cons {β : Type} (a : ℕ) (v : β) (rest : List (ℕ × β)) (k : ℕ) :
    mapDelete ((a, v) :: rest) k =
      if a = k then mapDelete rest k else (a, v) :: mapDelete rest k := by
  by_cases ha : a = k <;> simp [mapDelete, List.filter_cons, ha]

theorem mapInsert_eq_cons_mapDelete {β : Type} (m : List (ℕ × β)) (k : ℕ) (v : β) :
    mapInsert m k v = (k, v) :: mapDelete m k := rfl

theorem mapLookup_mapDelete {β : Type} (m : List (ℕ × β)) (k k' : ℕ) :
    mapLookup (mapDelete m k) k' = if k' = k then none else mapLookup m k' := by
  induction m with
  | nil => simp [mapDelete_nil, mapLookup]
  | cons e rest ih =>
    obtain ⟨a, v⟩ := e
    rw [mapDelete_cons]
    by_cases ha : a = k
    · subst ha
      rw [if_pos rfl, ih]
      by_cases h : k' = a
      · simp [h]
      · simp [mapLookup, h]
    · rw [if_neg ha]
      by_cases h : k' = a
      · subst h
        have hk : k' ≠ k := ha
        simp [mapLookup, hk]
      · simp only [mapLookup, if_neg h]
        exact ih

theorem mapLookup_mapInsert {β : Type} (m : List (ℕ × β)) (k k' : ℕ) (v : β) :
    mapLookup (mapInsert m k v) k' = if k' = k then some v else mapLookup m k' := by
  rw [mapInsert_eq_cons_mapDelete]
  by_cases h : k' = k
  · simp [mapLookup, h]
  · simp only [mapLookup, if_neg h]
    rw [mapLookup_mapDelete, if_neg h]

theorem mapLookup_mapValues {β γ : Type} (f : β → γ) (m : List (ℕ × β)) (k : ℕ) :
    mapLookup (m.map fun e => (e.1, f e.2)) k = (mapLookup m k).map f := by
  induction m with
  | nil => rfl
  | cons e rest ih =>
    obtain ⟨a, v⟩ := e
    by_cases ha : k = a
    · simp [mapLookup, ha]
    · simp [mapLookup, ha, ih]

theorem mapLookup_eq_none_iff {β : Type} (m : List (ℕ × β)) (k : ℕ) :
    mapLookup m k = none ↔ k ∉ m.map Prod.fst := by
  induction m with
  | nil => simp [mapLookup]
  | cons e rest ih =>
    obtain ⟨a, v⟩ := e
    by_cases ha : k = a
    · simp [mapLookup, ha]
    · simp [mapLookup, ha, ih]

theorem isSome_optionMap {β γ : Type} (f : β → γ) (o : Option β) :
    (o.map f).isSome = o.isSome := by
  cases o <;> rfl

theorem not_mem_keys_mapDelete {β : Type} (m : List (ℕ × β)) (k : ℕ) :
    k ∉ (mapDelete m k).map Prod.fst := by
  rw [← mapLookup_eq_none_iff, mapLookup_mapDelete, if_pos rfl]

theorem keys_mapDelete_sublist {β : Type} (m : List (ℕ × β)) (k : ℕ) :
    ((mapDelete m k).map Prod.fst).Sublist (m.map Prod.fst) :=
  List.Sublist.map Prod.fst (List.filter_sublist m)

theorem mapNodup_mapDelete {β : Type} (m : List (ℕ × β)) (k : ℕ)
    (h : (m.map Prod.fst).Nodup) : ((mapDelete m k).map Prod.fst).Nodup :=
  h.sublist (keys_mapDelete_sublist m k)

theorem mapNodup_mapInsert {β : Type} (m : List (ℕ × β)) (k : ℕ) (v : β)
    (h : (m.map Prod.fst).Nodup) : ((mapInsert m k v).map Prod.fst).Nodup := by
  rw [mapInsert_eq_cons_mapDelete]
  exact List.Nodup.cons (not_mem_keys_mapDelete m k) (mapNodup_mapDelete m k h)

theorem mapDelete_of_lookup_none {β : Type} (m : List (ℕ × β)) (k : ℕ)
    (h : mapLookup m k = none) : mapDelete m k = m := by
  induction m with
  | nil => rfl
  | cons e rest ih =>
    obtain ⟨a, v⟩ := e
    by_cases ha : k = a
    · simp [mapLookup, ha] at h
    · simp only [mapLookup, if_neg ha] at h
      rw [mapDelete_cons, if_neg (fun hc => ha hc.symm), ih h]

theorem length_mapDelete_of_lookup_some {β : Type} (m : List (ℕ × β)) (k : ℕ) (v : β)
    (hn : (m.map Prod.fst).Nodup) (h : mapLookup m k = some v) :
    (mapDelete m k).length + 1 = m.length := by
  induction m with
  | nil => simp [mapLookup] at h
  | cons e rest ih =>
    obtain ⟨a, w⟩ := e
    simp only [List.map_cons, List.nodup_cons] at hn
    by_cases ha : k = a
    · subst ha
      have hrest : mapLookup rest k = none :=
        (mapLookup_eq_none_iff rest k).mpr hn.1
      rw [mapDelete_cons, if_pos rfl, mapDelete_of_lookup_none rest k hrest]
      simp
    · simp only [mapLookup, if_neg ha] at h
      have := ih hn.2 h
      rw [mapDelete_cons, if_neg (fun hc => ha hc.symm)]
      simpa using this

theorem length_mapInsert_of_lookup_some {β : Type} (m : List (ℕ × β)) (k : ℕ) (v v' : β)
    (hn : (m.map Prod.fst).Nodup) (h : mapLookup m k = some v) :
    (mapInsert m k v').length = m.length := by
  rw [mapInsert_eq_cons_mapDelete, List.length_cons]
  exact length_mapDelete_of_lookup_some m k v hn h

theorem length_mapInsert_of_lookup_none {β : Type} (m : List (ℕ × β)) (k : ℕ) (v : β)
    (h : mapLookup m k = none) : (mapInsert m k v).length = m.length + 1 := by
  rw [mapInsert_eq_cons_mapDelete, List.length_cons, mapDelete_of_lookup_none m k h]

theorem lookupAll_mem {β : Type} (m : List (ℕ × β)) (l : List ℕ) (idxs : List β)
    (h : lookupAll m l = some idxs) :
    ∀ x ∈ idxs, ∃ p, mapLookup m p = some x := by
  induction l generalizing idxs with
  | nil =>
    simp only [lookupAll, Option.some_inj] at h
    subst h
    simp
  | cons a l ih =>
    simp only [lookupAll] at h
    cases hb : mapLookup m a with
    | none => rw [hb] at h; exact absurd h (by simp)
    | some b =>
      rw [hb] at h
      cases hrest : lookupAll m l with
      | none => rw [hrest] at h; exact absurd h (by simp)
      | some rest =>
        rw [hrest] at h
        have hh : b :: rest = idxs := Option.some_inj.mp h
        subst hh
        intro x hx
        rcases List.mem_cons.mp hx with rfl | hx
        · exact ⟨a, hb⟩
        · exact ih rest hrest x hx

theorem trackerWF_empty : TrackerWF emptyTracker := by
  refine ⟨?_, ?_, ?_, ?_, ?_, ?_, ?_⟩ <;>
    simp [emptyTracker, mapLookup]

theorem trackerWF_add (g : GossipTracker) (id : ℕ) (h : TrackerWF g) :
    TrackerWF (g.Add id).1 := by
  cases hl : mapLookup g.peersToIndices id with
  | some i =>
    simpa [GossipTracker.Add, hl] using h
  | none =>
    have hg : (g.Add id).1 =
        { localBits := insert g.peersToIndices.length g.localBits
          knownPeers := mapInsert g.knownPeers id ∅
          peersToIndices := mapInsert g.peersToIndices id g.peersToIndices.length
          indicesToPeers := mapInsert g.indicesToPeers g.peersToIndices.length id } := by
      simp [GossipTracker.Add, hl]
    rw [hg]
    have hlen : (mapInsert g.peersToIndices id g.peersToIndices.length).length =
        g.peersToIndices.length + 1 :=
      length_mapInsert_of_lookup_none _ _ _ hl
    refine ⟨?_, ?_, ?_, ?_, ?_, ?_, ?_⟩
    · exact mapNodup_mapInsert _ _ _ h.p2iNodup
    · intro p
      show (mapLookup (mapInsert g.knownPeers id ∅) p).isSome =
        (mapLookup (mapInsert g.peersToIndices id g.peersToIndices.length) p).isSome
      rw [mapLookup_mapInsert, mapLookup_mapInsert]
      by_cases hp : p = id
      · simp [hp]
      · simp [hp, h.knownKeys p]
    · intro p i
      show mapLookup (mapInsert g.peersToIndices id g.peersToIndices.length) p = some i ↔
        mapLookup (mapInsert g.indicesToPeers g.peersToIndices.length id) i = some p
      rw [mapLookup_mapInsert, mapLookup_mapInsert]
      by_cases hp : p = id
      · subst hp
        by_cases hi : i = g.peersToIndices.length
        · simp [hi]
        · simp only [if_pos rfl, if_neg hi]
          constructor
          · intro hc
            exact absurd (Option.some_inj.mp hc).symm hi
          · intro hc
            have := (h.coherent p i).mpr hc
            rw [hl] at this
            exact absurd this (by simp)
      · by_cases hi : i = g.peersToIndices.length
        · subst hi
          simp only [if_neg hp, if_pos rfl]
          constructor
          · intro hc
            exact absurd (h.idxLt p _ hc) (lt_irrefl _)
          · intro hc
            exact absurd (Option.some_inj.mp hc).symm hp
        · simpa [hp, hi] using h.coherent p i
    · intro p i
      show mapLookup (mapInsert g.peersToIndices id g.peersToIndices.length) p = some i →
        i < (mapInsert g.peersToIndices id g.peersToIndices.length).length
      intro hpi
      rw [mapLookup_mapInsert] at hpi
      rw [hlen]
      by_cases hp : p = id
      · rw [if_pos hp] at hpi
        have := Option.some_inj.mp hpi
        omega
      · rw [if_neg hp] at hpi
        have := h.idxLt p i hpi
        omega
    · intro i
      show (mapLookup (mapInsert g.indicesToPeers g.peersToIndices.length id) i).isSome ↔
        i < (mapInsert g.peersToIndices id g.peersToIndices.length).length
      rw [mapLookup_mapInsert, hlen]
      by_cases hi : i = g.peersToIndices.length
      · simp [hi]
      · rw [if_neg hi, h.i2pDom i]
        omega
    · show insert g.peersToIndices.length g.localBits = _
      rw [hlen, h.localEq, Finset.range_succ]
    · intro p bs hbs
      rw [mapLookup_mapInsert] at hbs
      rw [hlen]
      by_cases hp : p = id
      · rw [if_pos hp] at hbs
        have : bs = ∅ := (Option.some_inj.mp hbs).symm
        subst this
        simp
      · rw [if_neg hp] at hbs
        intro j hj
        have := h.knownSub p bs hbs j hj
        omega

theorem trackerWF_updateKnown (g : GossipTracker) (id : ℕ) (learned : List ℕ)
    (h : TrackerWF g) : TrackerWF (g.UpdateKnown id learned).1 := by
  cases hk : mapLookup g.knownPeers id with
  | none =>
    simpa [GossipTracker.UpdateKnown, hk] using h
  | some known =>
    cases hm : lookupAll g.peersToIndices learned with
    | none =>
      simpa [GossipTracker.UpdateKnown, hk, hm] using h
    | some idxs =>
      have hg : (g.UpdateKnown id learned).1 =
          { g with knownPeers := mapInsert g.knownPeers id (known ∪ idxs.toFinset) } := by
        simp [GossipTracker.UpdateKnown, hk, hm]
      rw [hg]
      refine ⟨h.p2iNodup, ?_, h.coherent, h.idxLt, h.i2pDom, h.localEq, ?_⟩
      · intro p
        show (mapLookup (mapInsert g.knownPeers id (known ∪ idxs.toFinset)) p).isSome = _
        rw [mapLookup_mapInsert]
        by_cases hp : p = id
        · subst hp
          have := h.knownKeys p
          rw [hk] at this
          simp only [if_pos rfl]
          simpa using this.symm
        · simp [hp, h.knownKeys p]
      · intro p bs hbs
        rw [mapLookup_mapInsert] at hbs
        by_cases hp : p = id
        · rw [if_pos hp] at hbs
          have hbs' : bs = known ∪ idxs.toFinset := (Option.some_inj.mp hbs).symm
          subst hbs'
          intro j hj
          rcases Finset.mem_union.mp hj with hj | hj
          · exact h.knownSub id known hk j hj
          · obtain ⟨p', hp'⟩ := lookupAll_mem _ learned idxs hm j
              (List.mem_toFinset.mp hj)
            exact h.idxLt p' j hp'
        · rw [if_neg hp] at hbs
          exact h.knownSub p bs hbs

theorem trackerWF_remove (g : GossipTracker) (id : ℕ) (h : TrackerWF g) :
    TrackerWF (g.Remove id).1 := by
  cases hl : mapLookup g.peersToIndices id with
  | none => simpa [GossipTracker.Remove, hl] using h
  | some idx =>
    have hidx : idx < g.peersToIndices.length := h.idxLt _ _ hl
    have hev : mapLookup g.indicesToPeers idx = some id := (h.coherent _ _).mp hl
    by_cases htail : idx = g.peersToIndices.length - 1
    · subst htail
      have hg : (g.Remove id).1 =
          { localBits := g.localBits.erase (g.peersToIndices.length - 1)
            knownPeers := (mapDelete g.knownPeers id).map
              (fun e => (e.1, e.2.erase (g.peersToIndices.length - 1)))
            peersToIndices := mapDelete g.peersToIndices id
            indicesToPeers := mapDelete g.indicesToPeers (g.peersToIndices.length - 1) } := by
        simp [GossipTracker.Remove, hl, hev]
      rw [hg]
      have hlen : (mapDelete g.peersToIndices id).length + 1 = g.peersToIndices.length :=
        length_mapDelete_of_lookup_some _ _ _ h.p2iNodup hl
      refine ⟨?_, ?_, ?_, ?_, ?_, ?_, ?_⟩
      · exact mapNodup_mapDelete _ _ h.p2iNodup
      · intro p
        show (mapLookup ((mapDelete g.knownPeers id).map
            (fun e => (e.1, e.2.erase (g.peersToIndices.length - 1)))) p).isSome =
          (mapLookup (mapDelete g.peersToIndices id) p).isSome
        rw [mapLookup_mapValues (fun b => b.erase (g.peersToIndices.length - 1))
          (mapDelete g.knownPeers id) p, mapLookup_mapDelete, mapLookup_mapDelete]
        by_cases hp : p = id
        · simp [hp]
        · simp [hp, h.knownKeys p]
      · intro p i
        show mapLookup (mapDelete g.peersToIndices id) p = some i ↔
          mapLookup (mapDelete g.indicesToPeers (g.peersToIndices.length - 1)) i = some p
        rw [mapLookup_mapDelete, mapLookup_mapDelete]
        by_cases hp : p = id
        · rw [if_pos hp]
          by_cases hi : i = g.peersToIndices.length - 1
          · simp [hi]
          · rw [if_neg hi]
            constructor
            · intro hc
              simp at hc
            · intro hc
              exfalso
              subst hp
              have h2 := (h.coherent p i).mpr hc
              rw [hl] at h2
              exact hi (Option.some_inj.mp h2).symm
        · rw [if_neg hp]
          by_cases hi : i = g.peersToIndices.length - 1
          · rw [if_pos hi]
            constructor
            · intro hc
              exfalso
              have h2 := (h.coherent p i).mp hc
              rw [hi, hev] at h2
              exact hp (Option.some_inj.mp h2).symm
            · intro hc
              simp at hc
          · rw [if_neg hi]
            exact h.coherent p i
      · intro p i
        show mapLookup (mapDelete g.peersToIndices id) p = some i →
          i < (mapDelete g.peersToIndices id).length
        intro hpi
        rw [mapLookup_mapDelete] at hpi
        by_cases hp : p = id
        · rw [if_pos hp] at hpi
          simp at hpi
        · rw [if_neg hp] at hpi
          have h1 := h.idxLt p i hpi
          have h2 : i ≠ g.peersToIndices.length - 1 := by
            intro hc
            have h3 := (h.coherent p i).mp hpi
            rw [hc, hev] at h3
            exact hp (Option.some_inj.mp h3).symm
          omega
      · intro i
        show (mapLookup (mapDelete g.indicesToPeers (g.peersToIndices.length - 1)) i).isSome ↔
          i < (mapDelete g.peersToIndices id).length
        rw [mapLookup_mapDelete]
        by_cases hi : i = g.peersToIndices.length - 1
        · rw [if_pos hi]
          simp
          omega
        · rw [if_neg hi, h.i2pDom i]
          omega
      · show g.localBits.erase (g.peersToIndices.length - 1) =
          Finset.range (mapDelete g.peersToIndices id).length
        have hrange : Finset.range g.peersToIndices.length =
            insert (g.peersToIndices.length - 1)
              (Finset.range (g.peersToIndices.length - 1)) := by
          conv_lhs => rw [show g.peersToIndices.length = (g.peersToIndices.length - 1) + 1 by omega]
          exact Finset.range_succ
        rw [h.localEq, hrange, Finset.erase_insert (Finset.not_mem_range_self)]
        congr 1
        omega
      · intro p bs
        show mapLookup ((mapDelete g.knownPeers id).map
            (fun e => (e.1, e.2.erase (g.peersToIndices.length - 1)))) p = some bs →
          ∀ j ∈ bs, j < (mapDelete g.peersToIndices id).length
        intro hbs
        rw [mapLookup_mapValues (fun b => b.erase (g.peersToIndices.length - 1))
          (mapDelete g.knownPeers id) p, mapLookup_mapDelete] at hbs
        by_cases hp : p = id
        · rw [if_pos hp] at hbs
          simp at hbs
        · rw [if_neg hp] at hbs
          cases hb0 : mapLookup g.knownPeers p with
          | none => rw [hb0] at hbs; simp at hbs
          | some bs0 =>
            rw [hb0] at hbs
            have hbseq : bs = bs0.erase (g.peersToIndices.length - 1) :=
              (Option.some_inj.mp hbs).symm
            subst hbseq
            intro j hj
            have hj1 := Finset.mem_of_mem_erase hj
            have hj2 := Finset.ne_of_mem_erase hj
            have := h.knownSub p bs0 hb0 j hj1
            omega
    · have hn1 : g.peersToIndices.length - 1 < g.peersToIndices.length := by omega
      have hsome := (h.i2pDom (g.peersToIndices.length - 1)).mpr hn1
      cases hlp : mapLookup g.indicesToPeers (g.peersToIndices.length - 1) with
      | none => rw [hlp] at hsome; simp at hsome
      | some lp =>
        have hlp2i : mapLookup g.peersToIndices lp = some (g.peersToIndices.length - 1) :=
          (h.coherent lp _).mpr hlp
        have hlpid : lp ≠ id := by
          intro hc
          rw [hc, hl] at hlp2i
          exact htail (Option.some_inj.mp hlp2i)
        have hg : (g.Remove id).1 =
            { localBits := g.localBits.erase (g.peersToIndices.length - 1)
              knownPeers := (mapDelete g.knownPeers id).map
                (fun e => (e.1,
                  (if (g.peersToIndices.length - 1) ∈ e.2 then insert idx e.2
                   else e.2.erase idx).erase (g.peersToIndices.length - 1)))
              peersToIndices := mapDelete (mapInsert g.peersToIndices lp idx) id
              indicesToPeers := mapDelete (mapInsert g.indicesToPeers idx lp)
                (g.peersToIndices.length - 1) } := by
          simp [GossipTracker.Remove, hl, hev, hlp, htail]
        rw [hg]
        have hnodup0 : ((mapInsert g.peersToIndices lp idx).map Prod.fst).Nodup :=
          mapNodup_mapInsert _ _ _ h.p2iNodup
        have hlen0 : (mapInsert g.peersToIndices lp idx).length = g.peersToIndices.length :=
          length_mapInsert_of_lookup_some _ _ _ _ h.p2iNodup hlp2i
        have hlookId : mapLookup (mapInsert g.peersToIndices lp idx) id = some idx := by
          rw [mapLookup_mapInsert, if_neg (fun hc => hlpid hc.symm)]
          exact hl
        have hlen : (mapDelete (mapInsert g.peersToIndices lp idx) id).length + 1 =
            g.peersToIndices.length := by
          have := length_mapDelete_of_lookup_some _ _ _ hnodup0 hlookId
          omega
        have hLp2i : ∀ p, mapLookup (mapDelete (mapInsert g.peersToIndices lp idx) id) p =
            if p = id then none
            else if p = lp then some idx
            else mapLookup g.peersToIndices p := by
          intro p
          rw [mapLookup_mapDelete, mapLookup_mapInsert]
        have hLi2p : ∀ i, mapLookup (mapDelete (mapInsert g.indicesToPeers idx lp)
              (g.peersToIndices.length - 1)) i =
            if i = g.peersToIndices.length - 1 then none
            else if i = idx then some lp
            else mapLookup g.indicesToPeers i := by
          intro i
          rw [mapLookup_mapDelete, mapLookup_mapInsert]
        refine ⟨?_, ?_, ?_, ?_, ?_, ?_, ?_⟩
        · exact mapNodup_mapDelete _ _ hnodup0
        · intro p
          show (mapLookup ((mapDelete g.knownPeers id).map
              (fun e => (e.1,
                (if (g.peersToIndices.length - 1) ∈ e.2 then insert idx e.2
                 else e.2.erase idx).erase (g.peersToIndices.length - 1)))) p).isSome =
            (mapLookup (mapDelete (mapInsert g.peersToIndices lp idx) id) p).isSome
          rw [mapLookup_mapValues (fun b =>
              (if (g.peersToIndices.length - 1) ∈ b then insert idx b
               else b.erase idx).erase (g.peersToIndices.length - 1))
            (mapDelete g.knownPeers id) p, mapLookup_mapDelete, hLp2i p]
          by_cases hp : p = id
          · simp [hp]
          · rw [if_neg hp, if_neg hp, isSome_optionMap]
            by_cases hp2 : p = lp
            · rw [if_pos hp2, hp2, h.knownKeys lp, hlp2i]
              rfl
            · rw [if_neg hp2]
              exact h.knownKeys p
        · intro p i
          show mapLookup (mapDelete (mapInsert g.peersToIndices lp idx) id) p = some i ↔
            mapLookup (mapDelete (mapInsert g.indicesToPeers idx lp)
              (g.peersToIndices.length - 1)) i = some p
          rw [hLp2i p, hLi2p i]
          by_cases hp : p = id
          · rw [if_pos hp]
            by_cases hi1 : i = g.peersToIndices.length - 1
            · rw [if_pos hi1]
              simp
            · rw [if_neg hi1]
              by_cases hi2 : i = idx
              · rw [if_pos hi2]
                subst hp
                constructor
                · intro hc
                  simp at hc
                · intro hc
                  exact absurd (Option.some_inj.mp hc) hlpid
              · rw [if_neg hi2]
                constructor
                · intro hc
                  simp at hc
                · intro hc
                  exfalso
                  subst hp
                  have h2 := (h.coherent p i).mpr hc
                  rw [hl] at h2
                  exact hi2 (Option.some_inj.mp h2).symm
          · rw [if_neg hp]
            by_cases hp2 : p = lp
            · rw [if_pos hp2]
              by_cases hi1 : i = g.peersToIndices.length - 1
              · rw [if_pos hi1]
                constructor
                · intro hc
                  exact absurd ((Option.some_inj.mp hc) ▸ hi1) htail
                · intro hc
                  simp at hc
              · rw [if_neg hi1]
                by_cases hi2 : i = idx
                · rw [if_pos hi2, hi2, hp2]
                  simp
                · rw [if_neg hi2]
                  constructor
                  · intro hc
                    exact absurd (Option.some_inj.mp hc) (fun hc2 => hi2 hc2.symm)
                  · intro hc
                    exfalso
                    have h2 := (h.coherent lp i).mpr (hp2 ▸ hc)
                    rw [hlp2i] at h2
                    exact hi1 (Option.some_inj.mp h2).symm
            · rw [if_neg hp2]
              by_cases hi1 : i = g.peersToIndices.length - 1
              · rw [if_pos hi1]
                constructor
                · intro hc
                  exfalso
                  have h2 := (h.coherent p i).mp hc
                  rw [hi1, hlp] at h2
                  exact hp2 (Option.some_inj.mp h2).symm
                · intro hc
                  simp at hc
              · rw [if_neg hi1]
                by_cases hi2 : i = idx
                · rw [if_pos hi2]
                  constructor
                  · intro hc
                    exfalso
                    have h2 := (h.coherent p i).mp hc
                    rw [hi2, hev] at h2
                    exact hp (Option.some_inj.mp h2).symm
                  · intro hc
                    exact absurd (Option.some_inj.mp hc) (fun hc2 => hp2 hc2.symm)
                · rw [if_neg hi2]
                  exact h.coherent p i
        · intro p i
          show mapLookup (mapDelete (mapInsert g.peersToIndices lp idx) id) p = some i →
            i < (mapDelete (mapInsert g.peersToIndices lp idx) id).length
          intro hpi
          rw [hLp2i p] at hpi
          by_cases hp : p = id
          · rw [if_pos hp] at hpi
            simp at hpi
          · rw [if_neg hp] at hpi
            by_cases hp2 : p = lp
            · rw [if_pos hp2] at hpi
              have : idx = i := Option.some_inj.mp hpi
              omega
            · rw [if_neg hp2] at hpi
              have h1 := h.idxLt p i hpi
              have h2 : i ≠ g.peersToIndices.length - 1 := by
                intro hc
                have h3 := (h.coherent p i).mp hpi
                rw [hc, hlp] at h3
                exact hp2 (Option.some_inj.mp h3).symm
              omega
        · intro i
          show (mapLookup (mapDelete (mapInsert g.indicesToPeers idx lp)
              (g.peersToIndices.length - 1)) i).isSome ↔
            i < (mapDelete (mapInsert g.peersToIndices lp idx) id).length
          rw [hLi2p i]
          by_cases hi1 : i = g.peersToIndices.length - 1
          · rw [if_pos hi1]
            simp
            omega
          · rw [if_neg hi1]
            by_cases hi2 : i = idx
            · rw [if_pos hi2]
              simp
              omega
            · rw [if_neg hi2, h.i2pDom i]
              omega
        · show g.localBits.erase (g.peersToIndices.length - 1) =
            Finset.range (mapDelete (mapInsert g.peersToIndices lp idx) id).length
          have hrange : Finset.range g.peersToIndices.length =
              insert (g.peersToIndices.length - 1)
                (Finset.range (g.peersToIndices.length - 1)) := by
            conv_lhs => rw [show g.peersToIndices.length =
              (g.peersToIndices.length - 1) + 1 by omega]
            exact Finset.range_succ
          rw [h.localEq, hrange, Finset.erase_insert (Finset.not_mem_range_self)]
          congr 1
          omega
        · intro p bs
          show mapLookup ((mapDelete g.knownPeers id).map
              (fun e => (e.1,
                (if (g.peersToIndices.length - 1) ∈ e.2 then insert idx e.2
                 else e.2.erase idx).erase (g.peersToIndices.length - 1)))) p = some bs →
            ∀ j ∈ bs, j < (mapDelete (mapInsert g.peersToIndices lp idx) id).length
          intro hbs
          rw [mapLookup_mapValues (fun b =>
              (if (g.peersToIndices.length - 1) ∈ b then insert idx b
               else b.erase idx).erase (g.peersToIndices.length - 1))
            (mapDelete g.knownPeers id) p, mapLookup_mapDelete] at hbs
          by_cases hp : p = id
          · rw [if_pos hp] at hbs
            simp at hbs
          · rw [if_neg hp] at hbs
            cases hb0 : mapLookup g.knownPeers p with
            | none => rw [hb0] at hbs; simp at hbs
            | some bs0 =>
              rw [hb0] at hbs
              have hbseq : bs = (if (g.peersToIndices.length - 1) ∈ bs0 then insert idx bs0
                  else bs0.erase idx).erase (g.peersToIndices.length - 1) :=
                (Option.some_inj.mp hbs).symm
              subst hbseq
              intro j hj
              have hj1 := Finset.mem_of_mem_erase hj
              have hj2 := Finset.ne_of_mem_erase hj
              have hjn : j < g.peersToIndices.length := by
                by_cases hb : (g.peersToIndices.length - 1) ∈ bs0
                · rw [if_pos hb] at hj1
                  rcases Finset.mem_insert.mp hj1 with rfl | hj3
                  · exact hidx
                  · exact h.knownSub p bs0 hb0 j hj3
                · rw [if_neg hb] at hj1
                  exact h.knownSub p bs0 hb0 j (Finset.mem_of_mem_erase hj1)
              omega

theorem trackerWF_applyGossipOp (g : GossipTracker) (op : GossipOp)
    (h : TrackerWF g) : TrackerWF (applyGossipOp g op) := by
  cases op with
  | add id => exact trackerWF_add g id h
  | remove id => exact trackerWF_remove g id h
  | updateKnown id learned => exact trackerWF_updateKnown g id learned h

theorem trackerWF_applyGossipOps (ops : List GossipOp) (g : GossipTracker)
    (h : TrackerWF g) : TrackerWF (applyGossipOps ops g) := by
  induction ops generalizing g with
  | nil => exact h
  | cons op ops ih => exact ih _ (trackerWF_applyGossipOp g op h)

theorem mem_lt_bitsetLen (bs : Finset ℕ) (i : ℕ) (h : i ∈ bs) : i < bitsetLen bs := by
  show i < bs.sup (· + 1)
  have h2 : i + 1 ≤ bs.sup (· + 1) := Finset.le_sup h
  omega

theorem bitset_filter_range_eq_sort (bs : Finset ℕ) :
    (List.range (bitsetLen bs)).filter (fun i => decide (i ∈ bs)) = bs.sort (· ≤ ·) := by
  have hperm : ((List.range (bitsetLen bs)).filter (fun i => decide (i ∈ bs))).Perm
      (bs.sort (· ≤ ·)) := by
    rw [List.perm_ext_iff_of_nodup ((List.nodup_range _).filter _) (bs.sort_nodup (· ≤ ·))]
    intro i
    rw [List.mem_filter, List.mem_range, Finset.mem_sort, decide_eq_true_eq]
    constructor
    · exact fun hc => hc.2
    · exact fun hc => ⟨mem_lt_bitsetLen bs i hc, hc⟩
  have hs1 : ((List.range (bitsetLen bs)).filter (fun i => decide (i ∈ bs))).Sorted (· ≤ ·) :=
    ((List.sorted_lt_range _).filter _).imp le_of_lt
  exact List.eq_of_perm_of_sorted hperm hs1 (bs.sort_sorted (· ≤ ·))

/-- C8: for a tracked peer and a positive limit, GetUnknown returns the node
ids of the indices set in local and not in the known-peers bitset of the
peer, in increasing index order from the least significant bit, truncated to
at most limit elements. -/
theorem getUnknown_of_tracked (g : GossipTracker) (id : ℕ) (limit : ℤ)
    (known : Finset ℕ) (hk : mapLookup g.knownPeers id = some known)
    (hl : 1 ≤ limit) :
    g.GetUnknown id limit =
      some ((((g.localBits \ known).sort (· ≤ ·)).take limit.toNat).map
        (fun i => (mapLookup g.indicesToPeers i).getD 0)) := by
  unfold GossipTracker.GetUnknown
  rw [if_neg (by omega), hk]
  simp only [bitset_filter_range_eq_sort]

theorem getUnknown_of_tracked_witness :
    (1 : ℤ) ≤ 8 ∧
    GossipTracker.GetUnknown
      { localBits := {0, 1}, knownPeers := [(5, ({0} : Finset ℕ))]
        peersToIndices := [(5, 0), (6, 1)], indicesToPeers := [(0, 5), (1, 6)] } 5 8 =
      some ((((({0, 1} : Finset ℕ) \ {0}).sort (· ≤ ·)).take (8 : ℤ).toNat).map
        (fun i => (mapLookup [(0, 5), (1, 6)] i).getD 0)) :=
  ⟨by decide,
   getUnknown_of_tracked
     { localBits := {0, 1}, knownPeers := [(5, ({0} : Finset ℕ))]
       peersToIndices := [(5, 0), (6, 1)], indicesToPeers := [(0, 5), (1, 6)] }
     5 8 {0} rfl (by decide)⟩

/-- C9: after every sequence of add, remove and updateKnown operations from
the empty tracker, every known-peers bitset is a subset of the local bitset,
the indices assigned to tracked peers are exactly those below the
tracked-peer count, and the set bits of local are exactly the range below the
tracked-peer count. -/
theorem gossipTracker_invariants (ops : List GossipOp) :
    (∀ p bs, mapLookup (applyGossipOps ops emptyTracker).knownPeers p = some bs →
      bs ⊆ (applyGossipOps ops emptyTracker).localBits) ∧
    (∀ i, (∃ p, mapLookup (applyGossipOps ops emptyTracker).peersToIndices p = some i) ↔
      i < (applyGossipOps ops emptyTracker).peersToIndices.length) ∧
    (applyGossipOps ops emptyTracker).localBits =
      Finset.range (applyGossipOps ops emptyTracker).peersToIndices.length := by
  have h := trackerWF_applyGossipOps ops emptyTracker trackerWF_empty
  refine ⟨?_, ?_, h.localEq⟩
  · intro p bs hbs j hj
    rw [h.localEq]
    exact Finset.mem_range.mpr (h.knownSub p bs hbs j hj)
  · intro i
    constructor
    · rintro ⟨p, hp⟩
      exact h.idxLt p i hp
    · intro hi
      have hsome := (h.i2pDom i).mpr hi
      cases hq : mapLookup (applyGossipOps ops emptyTracker).indicesToPeers i with
      | none => rw [hq] at hsome; simp at hsome
      | some p => exact ⟨p, (h.coherent p i).mpr hq⟩

/-- C10: GetUnknown yields no list, and in the pure embedding no change,
whenever the limit is non-positive or the peer is untracked; in particular no
list of node ids is ever produced for an untracked peer. -/
theorem getUnknown_guard (g : GossipTracker) (id : ℕ) (limit : ℤ)
    (h : limit ≤ 0 ∨ mapLookup g.knownPeers id = none) :
    g.GetUnknown id limit = none := by
  unfold GossipTracker.GetUnknown
  rcases h with h | h
  · rw [if_pos h]
  · by_cases hl : limit ≤ 0
    · rw [if_pos hl]
    · rw [if_neg hl, h]

theorem getUnknown_guard_witness :
    (((-3 : ℤ) ≤ 0 ∨ mapLookup emptyTracker.knownPeers 7 = none) ∧
      emptyTracker.GetUnknown 7 (-3) = none) ∧
    (((5 : ℤ) ≤ 0 ∨ mapLookup emptyTracker.knownPeers 7 = none) ∧
      emptyTracker.GetUnknown 7 5 = none) :=
  ⟨⟨Or.inl (by decide), getUnknown_guard emptyTracker 7 (-3) (Or.inl (by decide))⟩,
   ⟨Or.inr rfl, getUnknown_guard emptyTracker 7 5 (Or.inr rfl)⟩⟩

/-- C4 counterexample: before the E upgrade, an AddPermissionlessValidatorTx
on a non-primary subnet is charged the add-subnet-validator fee (3 in this
configuration), not the flat transaction fee (1). On the primary network it
would be charged the create-asset fee (5). So the catch-all flat-fee schedule
does not cover the permissionless variants. -/
theorem preEUpgrade_permissionless_fee_counterexample :
    (FeeCalculator.visit samplePreECalc
        (fun _ => Dimensions.empty) (.addPermissionlessValidatorTx 1)).map (·.fee) =
      .ok 3 ∧ samplePreECalc.staticCfg.txFee = 1 ∧ (3 : ℕ) ≠ 1 :=
  ⟨rfl, rfl, by decide⟩

/-- C4 amended: before the E upgrade, the fee-bearing variants outside the
explicitly listed schedule split as follows: AddPermissionlessValidatorTx is
charged the add-subnet-validator fee off the primary network and the
create-asset fee on it; AddPermissionlessDelegatorTx the add-subnet-delegator
fee off the primary network and the add-primary-network-delegator fee on it;
RemoveSubnetValidatorTx, TransferSubnetOwnershipTx, BaseTx, ImportTx and
ExportTx the flat transaction fee. -/
theorem preEUpgrade_static_fees (c : FeeCalculator) (meter : PTx → Dimensions)
    (s : ℕ) (h : c.isEActive = false) :
    c.visit meter (.addPermissionlessValidatorTx s) =
      .ok { c with fee := if s ≠ primaryNetworkID then c.staticCfg.addSubnetValidatorFee
                          else c.staticCfg.createAssetTxFee } ∧
    c.visit meter (.addPermissionlessDelegatorTx s) =
      .ok { c with fee := if s ≠ primaryNetworkID then c.staticCfg.addSubnetDelegatorFee
                          else c.staticCfg.addPrimaryNetworkDelegatorFee } ∧
    c.visit meter .removeSubnetValidatorTx = .ok { c with fee := c.staticCfg.txFee } ∧
    c.visit meter .transferSubnetOwnershipTx = .ok { c with fee := c.staticCfg.txFee } ∧
    c.visit meter .baseTx = .ok { c with fee := c.staticCfg.txFee } ∧
    c.visit meter .importTx = .ok { c with fee := c.staticCfg.txFee } ∧
    c.visit meter .exportTx = .ok { c with fee := c.staticCfg.txFee } := by
  refine ⟨?_, ?_, ?_, ?_, ?_, ?_, ?_⟩ <;> simp [FeeCalculator.visit, h]

theorem preEUpgrade_static_fees_witness :
    samplePreECalc.isEActive = false ∧
    FeeCalculator.visit samplePreECalc
        (fun _ => Dimensions.empty) (.addPermissionlessValidatorTx 1) =
      .ok { samplePreECalc with
            fee := if (1 : ℕ) ≠ primaryNetworkID then
                samplePreECalc.staticCfg.addSubnetValidatorFee
              else samplePreECalc.staticCfg.createAssetTxFee } :=
  ⟨rfl,
   (preEUpgrade_static_fees samplePreECalc (fun _ => Dimensions.empty) 1 rfl).1⟩

/-- C5 counterexample: on a calculator whose required fee is zero and whose
stored tip percentage is seven, CalculateTipPercentage with three units paid
succeeds and leaves the stored tip percentage at seven, not zero. -/
theorem calculateTipPercentage_zeroFee_counterexample :
    ({ samplePreECalc with tipPercentage := 7 } : FeeCalculator).calculateTipPercentage 3 =
      .ok { samplePreECalc with tipPercentage := 7 } ∧
    ({ samplePreECalc with tipPercentage := 7 } : FeeCalculator).fee = 0 ∧ (7 : ℕ) ≠ 0 :=
  ⟨rfl, rfl, by decide⟩

/-- C5 amended: CalculateTipPercentage fails with the insufficient-fees error
exactly when the amount paid is below the required fee; when the required fee
is zero it succeeds leaving the calculator, in particular the stored tip
percentage, unchanged; otherwise it stores
(paid - required) * tipDenominator / required computed in 64-bit arithmetic,
which agrees with the exact formula whenever the multiplication does not
overflow. -/
theorem calculateTipPercentage_spec (c : FeeCalculator) (feesPaid : ℕ) :
    (feesPaid < c.fee → c.calculateTipPercentage feesPaid = .error .insufficientFees) ∧
    (∀ e, c.calculateTipPercentage feesPaid = .error e → feesPaid < c.fee) ∧
    (c.fee = 0 → c.fee ≤ feesPaid → c.calculateTipPercentage feesPaid = .ok c) ∧
    (c.fee ≠ 0 → c.fee ≤ feesPaid →
      c.calculateTipPercentage feesPaid =
        .ok { c with tipPercentage := (feesPaid - c.fee) * tipDenominator % w64 / c.fee }) ∧
    (c.fee ≠ 0 → c.fee ≤ feesPaid → (feesPaid - c.fee) * tipDenominator < w64 →
      c.calculateTipPercentage feesPaid =
        .ok { c with tipPercentage := (feesPaid - c.fee) * tipDenominator / c.fee }) := by
  unfold FeeCalculator.calculateTipPercentage
  refine ⟨?_, ?_, ?_, ?_, ?_⟩
  · intro h
    rw [if_pos h]
  · intro e he
    by_cases h : feesPaid < c.fee
    · exact h
    · rw [if_neg h] at he
      by_cases h0 : c.fee = 0
      · rw [if_pos h0] at he
        exact Except.noConfusion he
      · rw [if_neg h0] at he
        exact Except.noConfusion he
  · intro h0 hle
    rw [if_neg (by omega), if_pos h0]
  · intro h0 hle
    rw [if_neg (by omega), if_neg h0]
  · intro h0 hle hov
    rw [if_neg (by omega), if_neg h0, Nat.mod_eq_of_lt hov]

theorem calculateTipPercentage_spec_witness :
    sampleTipCalc.fee ≠ 0 ∧ sampleTipCalc.fee ≤ 10 ∧
    sampleTipCalc.calculateTipPercentage 10 =
      .ok { sampleTipCalc with
            tipPercentage := (10 - sampleTipCalc.fee) * tipDenominator % w64 / sampleTipCalc.fee } :=
  ⟨by decide, by decide,
   (calculateTipPercentage_spec sampleTipCalc 10).2.2.2.1 (by decide) (by decide)⟩

theorem addFeesFor_eq_empty (c : FeeCalculator) (x : Dimensions)
    (hx : x = Dimensions.empty) : c.addFeesFor x = .ok (0, c) := by
  cases hc : c.feeManager with
  | none => simp [FeeCalculator.addFeesFor, hc]
  | some fm => simp [FeeCalculator.addFeesFor, hc, hx]

theorem removeFeesFor_eq_empty (c : FeeCalculator) (x : Dimensions)
    (hx : x = Dimensions.empty) : c.removeFeesFor x = .ok (0, c) := by
  cases hc : c.feeManager with
  | none => simp [FeeCalculator.removeFeesFor, hc]
  | some fm => simp [FeeCalculator.removeFeesFor, hc, hx]

theorem addFeesFor_eq_cumulate_error (c : FeeCalculator) (fm : FeeManager)
    (x : Dimensions) (d : ℕ) (hfm : c.feeManager = some fm) (hx : x ≠ Dimensions.empty)
    (hcum : fm.cumulateComplexity x c.blockMaxComplexity = .error d) :
    c.addFeesFor x = .error (.blockCapacityExceeded d) := by
  simp [FeeCalculator.addFeesFor, hfm, hx, hcum]

theorem addFeesFor_eq_cumulate_ok (c : FeeCalculator) (fm fm1 : FeeManager)
    (x : Dimensions) (hfm : c.feeManager = some fm) (hx : x ≠ Dimensions.empty)
    (hcum : fm.cumulateComplexity x c.blockMaxComplexity = .ok fm1) :
    c.addFeesFor x = .ok (fm.calculateFee x c.tipPercentage % w64,
      { c with
          feeManager := some fm1,
          fee := (c.fee + fm.calculateFee x c.tipPercentage % w64) % w64 }) := by
  simp [FeeCalculator.addFeesFor, hfm, hx, hcum]

theorem removeFeesFor_eq (c : FeeCalculator) (fm : FeeManager) (x : Dimensions)
    (fm2 : FeeManager) (hfm : c.feeManager = some fm) (hx : x ≠ Dimensions.empty)
    (hrm : fm.removeComplexity x = some fm2) :
    c.removeFeesFor x = .ok (fm.calculateFee x c.tipPercentage % w64,
      { c with
          feeManager := some fm2,
          fee := (c.fee + (w64 - fm.calculateFee x c.tipPercentage % w64)) % w64 }) := by
  simp [FeeCalculator.removeFeesFor, hfm, hx, hrm]

theorem cumulate_then_remove (fm fm1 : FeeManager) (x cap : Dimensions)
    (h : fm.cumulateComplexity x cap = .ok fm1) :
    fm1.removeComplexity x = some fm ∧ fm1.unitFees = fm.unitFees := by
  obtain ⟨uf, ⟨cb, cr, cw, ck⟩⟩ := fm
  obtain ⟨xb, xr, xw, xk⟩ := x
  unfold FeeManager.cumulateComplexity at h
  dsimp only at h
  split_ifs at h with h1 h2 h3 h4
  have hfm1 : fm1 =
      { unitFees := uf
        cumulatedComplexity := ⟨cb + xb, cr + xr, cw + xw, ck + xk⟩ } :=
    ((Except.ok.injEq _ _).mp h).symm
  subst hfm1
  refine ⟨?_, rfl⟩
  unfold FeeManager.removeComplexity
  dsimp only
  rw [if_neg (by omega)]
  simp [Nat.add_sub_cancel]

theorem u64_add_sub_mod (a f : ℕ) (ha : a < w64) (hf : f < w64) :
    ((a + f) % w64 + (w64 - f)) % w64 = a := by
  rw [Nat.mod_add_mod]
  have h1 : a + f + (w64 - f) = a + w64 := by omega
  rw [h1, Nat.add_mod_right, Nat.mod_eq_of_lt ha]

/-- C6: on a calculator carrying a fee manager, if addFeesFor accepts a
complexity tuple then removeFeesFor of the same tuple succeeds, charges the
same fee amount, and restores both the running fee and the cumulative
complexity accumulator to their values before the pair of calls. -/
theorem addRemoveFeesFor_roundTrip (c : FeeCalculator) (fm : FeeManager)
    (x : Dimensions) (f : ℕ) (c1 : FeeCalculator)
    (hfm : c.feeManager = some fm) (hfee : c.fee < w64)
    (hadd : c.addFeesFor x = .ok (f, c1)) :
    ∃ c2, c1.removeFeesFor x = .ok (f, c2) ∧ c2.fee = c.fee ∧
      c2.feeManager = c.feeManager := by
  by_cases hx : x = Dimensions.empty
  · rw [addFeesFor_eq_empty c x hx] at hadd
    simp only [Except.ok.injEq, Prod.mk.injEq] at hadd
    obtain ⟨hf, hc⟩ := hadd
    subst hf
    subst hc
    exact ⟨c, removeFeesFor_eq_empty c x hx, rfl, rfl⟩
  · cases hcum : fm.cumulateComplexity x c.blockMaxComplexity with
    | error d =>
      rw [addFeesFor_eq_cumulate_error c fm x d hfm hx hcum] at hadd
      exact Except.noConfusion hadd
    | ok fm1 =>
      rw [addFeesFor_eq_cumulate_ok c fm fm1 x hfm hx hcum] at hadd
      simp only [Except.ok.injEq, Prod.mk.injEq] at hadd
      obtain ⟨hf, hc⟩ := hadd
      obtain ⟨hrm, huf⟩ := cumulate_then_remove fm fm1 x c.blockMaxComplexity hcum
      have hcalc : fm1.calculateFee x c.tipPercentage = fm.calculateFee x c.tipPercentage := by
        unfold FeeManager.calculateFee
        rw [huf]
      have hflt : fm.calculateFee x c.tipPercentage % w64 < w64 :=
        Nat.mod_lt _ (by norm_num [w64])
      subst hc
      subst hf
      have hstep := removeFeesFor_eq
        { c with
            feeManager := some fm1,
            fee := (c.fee + fm.calculateFee x c.tipPercentage % w64) % w64 }
        fm1 x fm rfl hx hrm
      dsimp only at hstep
      rw [hcalc] at hstep
      refine ⟨_, hstep, ?_, ?_⟩
      · show ((c.fee + fm.calculateFee x c.tipPercentage % w64) % w64 +
            (w64 - fm.calculateFee x c.tipPercentage % w64)) % w64 = c.fee
        exact u64_add_sub_mod c.fee _ hfee hflt
      · show some fm = c.feeManager
        exact hfm.symm

theorem addRemoveFeesFor_roundTrip_witness :
    sampleDynCalc.feeManager =
      some { unitFees := ⟨1, 2, 3, 4⟩, cumulatedComplexity := ⟨0, 0, 0, 0⟩ } ∧
    sampleDynCalc.fee < w64 ∧
    sampleDynCalc.addFeesFor ⟨10, 0, 0, 0⟩ =
      .ok (10, { sampleDynCalc with
                   feeManager :=
                     some { unitFees := ⟨1, 2, 3, 4⟩, cumulatedComplexity := ⟨10, 0, 0, 0⟩ },
                   fee := 20 }) ∧
    ∃ c2, FeeCalculator.removeFeesFor
        { sampleDynCalc with
            feeManager :=
              some { unitFees := ⟨1, 2, 3, 4⟩, cumulatedComplexity := ⟨10, 0, 0, 0⟩ },
            fee := 20 } ⟨10, 0, 0, 0⟩ = .ok (10, c2) ∧
      c2.fee = sampleDynCalc.fee ∧ c2.feeManager = sampleDynCalc.feeManager :=
  ⟨rfl, by decide, rfl,
   addRemoveFeesFor_roundTrip sampleDynCalc
     { unitFees := ⟨1, 2, 3, 4⟩, cumulatedComplexity := ⟨0, 0, 0, 0⟩ }
     ⟨10, 0, 0, 0⟩ 10
     { sampleDynCalc with
         feeManager :=
           some { unitFees := ⟨1, 2, 3, 4⟩, cumulatedComplexity := ⟨10, 0, 0, 0⟩ },
         fee := 20 }
     rfl (by decide) rfl⟩

theorem permissionlessDelegatorMaximumWeight_eq (factor vw maxStake : ℕ)
    (h : maxStake < w64) :
    permissionlessDelegatorMaximumWeight factor vw maxStake = min (factor * vw) maxStake := by
  unfold permissionlessDelegatorMaximumWeight mul64
  by_cases hm : factor * vw < w64
  · rw [if_pos hm]
  · rw [if_neg hm]
    show min (w64 - 1) maxStake = min (factor * vw) maxStake
    omega

theorem addDelegatorMaximumWeight_ok (cfg : PlatformConfig) (t vw : ℕ)
    (h : MaxValidatorWeightFactor * vw < w64) :
    addDelegatorMaximumWeight cfg t vw =
      .ok (if cfg.isApricotPhase3Activated t then
             min (MaxValidatorWeightFactor * vw) cfg.maxValidatorStake
           else MaxValidatorWeightFactor * vw) := by
  unfold addDelegatorMaximumWeight mul64
  rw [if_pos h]

theorem addDelegatorMaximumWeight_overflow (cfg : PlatformConfig) (t vw : ℕ)
    (h : w64 ≤ MaxValidatorWeightFactor * vw) :
    addDelegatorMaximumWeight cfg t vw = .error .stakeOverflow := by
  unfold addDelegatorMaximumWeight mul64
  rw [if_neg (by omega)]

/-- C1 counterexample: a delegator added by AddDelegatorTx to a primary
validator of weight 2 ^ 62 is rejected with the stake-overflow error (the
factor times the weight overflows 64 bits), so verification does not continue
with a saturated bound for the AddDelegatorTx path. -/
theorem addDelegatorTx_overflow_counterexample :
    verifyAddDelegatorTx sampleBackend overflowChainState
      { nodeID := 1, wght := 5, startTime := 200, stakingPeriod := 50 } =
      .error .stakeOverflow ∧
    w64 ≤ MaxValidatorWeightFactor * 2 ^ 62 :=
  ⟨rfl, by decide⟩

theorem verifyAddValidatorTx_gated (b : Backend) (cs : PChainState)
    (tx : AddValidatorTx) (hg : addValidatorGates b cs tx) :
    verifyAddValidatorTx b cs tx = startTimeGatedResultU b cs tx.startTime (.ok ()) := by
  obtain ⟨hsyn, hboot, hflow, h1, h2, h3, h4, h5, hv⟩ := hg
  unfold verifyAddValidatorTx startTimeGatedResultU
  by_cases hcs : b.config.isContinuousStakingActivated cs.timestamp = true
  · simp [hsyn, hboot, hflow, h1, h2, h3, h4, h5, hv, hcs]
  · have hcs' : b.config.isContinuousStakingActivated cs.timestamp = false := by
      simpa using hcs
    by_cases hst : tx.startTime ≤ cs.timestamp
    · simp [hsyn, hboot, h1, h2, h3, h4, h5, hcs', hst,
        show ¬(cs.timestamp < tx.startTime) by omega]
    · by_cases hfut : cs.timestamp + MaxFutureStartTime < tx.startTime
      · simp [hsyn, hboot, hflow, h1, h2, h3, h4, h5, hv, hcs', hst, hfut,
          show cs.timestamp < tx.startTime by omega]
      · simp [hsyn, hboot, hflow, h1, h2, h3, h4, h5, hv, hcs', hst, hfut,
          show cs.timestamp < tx.startTime by omega]

theorem verifyAddSubnetValidatorTx_gated (b : Backend) (cs : PChainState)
    (tx : AddSubnetValidatorTx) (v : StakerInfo)
    (hg : addSubnetValidatorGates b cs tx v) :
    verifyAddSubnetValidatorTx b cs tx = startTimeGatedResultU b cs tx.startTime (.ok ()) := by
  obtain ⟨hsyn, hboot, hauth, hflow, h1, h2, hdup, hv, hb1, hb2⟩ := hg
  unfold verifyAddSubnetValidatorTx startTimeGatedResultU
  by_cases hcs : b.config.isContinuousStakingActivated cs.timestamp = true
  · simp [hsyn, hboot, hauth, hflow, h1, h2, hdup, hv, hb1, hb2, hcs]
  · have hcs' : b.config.isContinuousStakingActivated cs.timestamp = false := by
      simpa using hcs
    by_cases hst : tx.startTime ≤ cs.timestamp
    · simp [hsyn, hboot, h1, h2, hcs', hst,
        show ¬(cs.timestamp < tx.startTime) by omega]
    · by_cases hfut : cs.timestamp + MaxFutureStartTime < tx.startTime
      · simp [hsyn, hboot, hauth, hflow, h1, h2, hdup, hv, hb1, hb2, hcs', hst, hfut,
          show cs.timestamp < tx.startTime by omega]
      · simp [hsyn, hboot, hauth, hflow, h1, h2, hdup, hv, hb1, hb2, hcs', hst, hfut,
          show cs.timestamp < tx.startTime by omega]

theorem verifyAddDelegatorTx_gated (b : Backend) (cs : PChainState)
    (tx : AddDelegatorTx) (v : StakerInfo) (hg : addDelegatorGates b cs tx v) :
    verifyAddDelegatorTx b cs tx = startTimeGatedResult b cs tx.startTime (.ok v.endTime) := by
  obtain ⟨hsyn, hboot, hflow, h1, h2, h3, hv, hmw, hcd⟩ := hg
  have hmwe := addDelegatorMaximumWeight_ok b.config cs.timestamp v.weight hmw
  unfold verifyAddDelegatorTx startTimeGatedResult
  by_cases hcs : b.config.isContinuousStakingActivated cs.timestamp = true
  · simp [hsyn, hboot, hflow, h1, h2, h3, hv, hmwe, hcd, hcs]
  · have hcs' : b.config.isContinuousStakingActivated cs.timestamp = false := by
      simpa using hcs
    by_cases hst : tx.startTime ≤ cs.timestamp
    · simp [hsyn, hboot, h1, h2, h3, hv, hcs', hst,
        show ¬(cs.timestamp < tx.startTime) by omega]
    · by_cases hfut : cs.timestamp + MaxFutureStartTime < tx.startTime
      · simp [hsyn, hboot, hflow, h1, h2, h3, hv, hmwe, hcd, hcs', hst, hfut,
          show cs.timestamp < tx.startTime by omega]
      · simp [hsyn, hboot, hflow, h1, h2, h3, hv, hmwe, hcd, hcs', hst, hfut,
          show cs.timestamp < tx.startTime by omega]

theorem verifyAddPermissionlessValidatorTx_gated (b : Backend) (cs : PChainState)
    (tx : AddPermissionlessValidatorTx) (r : ValidatorRules)
    (hg : addPermissionlessValidatorGates b cs tx r) :
    verifyAddPermissionlessValidatorTx b cs tx =
      startTimeGatedResultU b cs tx.startTime (.ok ()) := by
  obtain ⟨hsyn, hboot, hflow, hr, h1, h2, h3, h4, h5, hasset, hdup, hbnd, hprim⟩ := hg
  unfold verifyAddPermissionlessValidatorTx startTimeGatedResultU
  by_cases hcs : b.config.isContinuousStakingActivated cs.timestamp = true
  · by_cases hpn : tx.subnet = primaryNetworkID
    · rw [hpn] at hr hdup
      simp [hsyn, hboot, hflow, hr, h1, h2, h3, h4, h5, hasset, hdup, hcs, hpn]
    · have hsome := hprim hpn
      cases hv : cs.getValidator primaryNetworkID tx.nodeID with
      | none => rw [hv] at hsome; simp at hsome
      | some v =>
        obtain ⟨hb1, hb2⟩ := hbnd v hv
        simp [hsyn, hboot, hflow, hr, h1, h2, h3, h4, h5, hasset, hdup, hcs, hpn, hv,
          hb1, hb2]
  · have hcs' : b.config.isContinuousStakingActivated cs.timestamp = false := by
      simpa using hcs
    by_cases hst : tx.startTime ≤ cs.timestamp
    · simp [hsyn, hboot, hcs', hst, show ¬(cs.timestamp < tx.startTime) by omega]
    · have hlt : cs.timestamp < tx.startTime := by omega
      by_cases hpn : tx.subnet = primaryNetworkID
      · rw [hpn] at hr hdup
        by_cases hfut : cs.timestamp + MaxFutureStartTime < tx.startTime
        · simp [hsyn, hboot, hflow, hr, h1, h2, h3, h4, h5, hasset, hdup, hcs', hst,
            hfut, hlt, hpn]
        · simp [hsyn, hboot, hflow, hr, h1, h2, h3, h4, h5, hasset, hdup, hcs', hst,
            hfut, hlt, hpn]
      · have hsome := hprim hpn
        cases hv : cs.getValidator primaryNetworkID tx.nodeID with
        | none => rw [hv] at hsome; simp at hsome
        | some v =>
          obtain ⟨hb1, hb2⟩ := hbnd v hv
          by_cases hfut : cs.timestamp + MaxFutureStartTime < tx.startTime
          · simp [hsyn, hboot, hflow, hr, h1, h2, h3, h4, h5, hasset, hdup, hcs', hst,
              hfut, hlt, hpn, hv, hb1, hb2]
          · simp [hsyn, hboot, hflow, hr, h1, h2, h3, h4, h5, hasset, hdup, hcs', hst,
              hfut, hlt, hpn, hv, hb1, hb2]

theorem verifyAddPermissionlessDelegatorTx_gated (b : Backend) (cs : PChainState)
    (tx : AddPermissionlessDelegatorTx) (v : StakerInfo) (r : DelegatorRules)
    (hg : addPermissionlessDelegatorGates b cs tx v r) :
    verifyAddPermissionlessDelegatorTx b cs tx =
      startTimeGatedResult b cs tx.startTime (.ok v.endTime) := by
  obtain ⟨hsyn, hboot, hflow, hv, hr, h1, h2, h3, hasset, hcd, hperm⟩ := hg
  unfold verifyAddPermissionlessDelegatorTx startTimeGatedResult
  have hpermcond : ¬(tx.subnet ≠ primaryNetworkID ∧
      v.priorityIsPermissionedValidator = true) := by
    rintro ⟨hpn, hp⟩
    rw [hperm hpn] at hp
    exact Bool.false_ne_true hp
  by_cases hcs : b.config.isContinuousStakingActivated cs.timestamp = true
  · simp [hsyn, hboot, hflow, hv, hr, h1, h2, h3, hasset, hcd, hcs, hpermcond]
  · have hcs' : b.config.isContinuousStakingActivated cs.timestamp = false := by
      simpa using hcs
    by_cases hst : tx.startTime ≤ cs.timestamp
    · simp [hsyn, hboot, hv, hcs', hst, show ¬(cs.timestamp < tx.startTime) by omega]
    · by_cases hfut : cs.timestamp + MaxFutureStartTime < tx.startTime
      · simp [hsyn, hboot, hflow, hv, hr, h1, h2, h3, hasset, hcd, hcs', hst, hfut,
          hpermcond, show cs.timestamp < tx.startTime by omega]
      · simp [hsyn, hboot, hflow, hv, hr, h1, h2, h3, hasset, hcd, hcs', hst, hfut,
          hpermcond, show cs.timestamp < tx.startTime by omega]

theorem putDispatch_pendingValidator (p : Priority) (h : p.isPendingValidator = true) :
    putDispatch p = .putPendingValidator := by
  cases p <;> first
    | rfl
    | simp [Priority.isPendingValidator] at h

theorem putDispatch_pendingDelegator (p : Priority) (h : p.isPendingDelegator = true) :
    putDispatch p = .putPendingDelegator := by
  cases p <;> first
    | rfl
    | simp [Priority.isPendingDelegator] at h

theorem putDispatch_currentValidator (p : Priority) (h : p.isCurrentValidator = true) :
    putDispatch p = .putCurrentValidator := by
  cases p <;> first
    | rfl
    | simp [Priority.isCurrentValidator] at h

theorem putDispatch_currentDelegator (p : Priority) (h : p.isCurrentDelegator = true) :
    putDispatch p = .putCurrentDelegator := by
  cases p <;> first
    | rfl
    | simp [Priority.isCurrentDelegator] at h

theorem addStakerFromStakerTx_pre (cfg : PlatformConfig) (chainTime currentSupply : ℕ)
    (rc : ℕ → ℕ → ℕ → ℕ) (stx : StakerTx)
    (hcs : cfg.isContinuousStakingActivated chainTime = false) :
    addStakerFromStakerTx cfg chainTime currentSupply rc stx =
      { target := putDispatch stx.pendingPriority, priority := stx.pendingPriority,
        potentialReward := 0, updatedSupply := none } := by
  simp [addStakerFromStakerTx, hcs]

theorem addStakerFromStakerTx_post (cfg : PlatformConfig) (chainTime currentSupply : ℕ)
    (rc : ℕ → ℕ → ℕ → ℕ) (stx : StakerTx)
    (hcs : cfg.isContinuousStakingActivated chainTime = true) :
    (addStakerFromStakerTx cfg chainTime currentSupply rc stx).priority =
      stx.currentPriority ∧
    (addStakerFromStakerTx cfg chainTime currentSupply rc stx).target =
      putDispatch stx.currentPriority := by
  constructor <;> simp [addStakerFromStakerTx, hcs]

/-- C2: when every side condition passes, each Add* staking verifier is
exactly fork-gated on the start time: before the continuous-staking fork a
stated start time not strictly after the chain time is rejected with the
timestamp-not-before-start-time error, a start time more than
MaxFutureStartTime ahead is rejected with the future-stake-time error, and
otherwise verification succeeds; after the fork verification succeeds with no
condition on the start time. Moreover the inserted staker is built from the
pending priority and put into the pending set before the fork, and built from
the current priority and put into the current set after it. -/
theorem addStaker_startTime_forkGate :
    (∀ (b : Backend) (cs : PChainState) (tx : AddValidatorTx),
      addValidatorGates b cs tx →
      verifyAddValidatorTx b cs tx = startTimeGatedResultU b cs tx.startTime (.ok ())) ∧
    (∀ (b : Backend) (cs : PChainState) (tx : AddSubnetValidatorTx) (v : StakerInfo),
      addSubnetValidatorGates b cs tx v →
      verifyAddSubnetValidatorTx b cs tx = startTimeGatedResultU b cs tx.startTime (.ok ())) ∧
    (∀ (b : Backend) (cs : PChainState) (tx : AddDelegatorTx) (v : StakerInfo),
      addDelegatorGates b cs tx v →
      verifyAddDelegatorTx b cs tx = startTimeGatedResult b cs tx.startTime (.ok v.endTime)) ∧
    (∀ (b : Backend) (cs : PChainState) (tx : AddPermissionlessValidatorTx)
        (r : ValidatorRules), addPermissionlessValidatorGates b cs tx r →
      verifyAddPermissionlessValidatorTx b cs tx =
        startTimeGatedResultU b cs tx.startTime (.ok ())) ∧
    (∀ (b : Backend) (cs : PChainState) (tx : AddPermissionlessDelegatorTx)
        (v : StakerInfo) (r : DelegatorRules), addPermissionlessDelegatorGates b cs tx v r →
      verifyAddPermissionlessDelegatorTx b cs tx =
        startTimeGatedResult b cs tx.startTime (.ok v.endTime)) ∧
    (∀ (cfg : PlatformConfig) (chainTime currentSupply : ℕ)
        (rc : ℕ → ℕ → ℕ → ℕ) (stx : StakerTx),
      (cfg.isContinuousStakingActivated chainTime = false →
        (addStakerFromStakerTx cfg chainTime currentSupply rc stx).priority =
          stx.pendingPriority ∧
        (stx.pendingPriority.isPendingValidator = true →
          (addStakerFromStakerTx cfg chainTime currentSupply rc stx).target =
            .putPendingValidator) ∧
        (stx.pendingPriority.isPendingDelegator = true →
          (addStakerFromStakerTx cfg chainTime currentSupply rc stx).target =
            .putPendingDelegator)) ∧
      (cfg.isContinuousStakingActivated chainTime = true →
        (addStakerFromStakerTx cfg chainTime currentSupply rc stx).priority =
          stx.currentPriority ∧
        (stx.currentPriority.isCurrentValidator = true →
          (addStakerFromStakerTx cfg chainTime currentSupply rc stx).target =
            .putCurrentValidator) ∧
        (stx.currentPriority.isCurrentDelegator = true →
          (addStakerFromStakerTx cfg chainTime currentSupply rc stx).target =
            .putCurrentDelegator))) := by
  refine ⟨verifyAddValidatorTx_gated, verifyAddSubnetValidatorTx_gated,
    verifyAddDelegatorTx_gated, verifyAddPermissionlessValidatorTx_gated,
    verifyAddPermissionlessDelegatorTx_gated, ?_⟩
  intro cfg chainTime currentSupply rc stx
  constructor
  · intro hcs
    rw [addStakerFromStakerTx_pre cfg chainTime currentSupply rc stx hcs]
    exact ⟨rfl,
      fun h => putDispatch_pendingValidator _ h,
      fun h => putDispatch_pendingDelegator _ h⟩
  · intro hcs
    obtain ⟨hp, ht⟩ := addStakerFromStakerTx_post cfg chainTime currentSupply rc stx hcs
    exact ⟨hp,
      fun h => ht.trans (putDispatch_currentValidator _ h),
      fun h => ht.trans (putDispatch_currentDelegator _ h)⟩

theorem addStaker_startTime_forkGate_witness :
    addValidatorGates sampleBackend emptyChainState
      { nodeID := 1, wght := 5, delegationShares := 0, startTime := 200,
        stakingPeriod := 50 } ∧
    verifyAddValidatorTx sampleBackend emptyChainState
      { nodeID := 1, wght := 5, delegationShares := 0, startTime := 200,
        stakingPeriod := 50 } =
      startTimeGatedResultU sampleBackend emptyChainState 200 (.ok ()) :=
  ⟨⟨rfl, rfl, rfl, by decide, by decide, by decide, by decide, by decide, rfl⟩,
   addStaker_startTime_forkGate.1 sampleBackend emptyChainState
     { nodeID := 1, wght := 5, delegationShares := 0, startTime := 200,
       stakingPeriod := 50 }
     ⟨rfl, rfl, rfl, by decide, by decide, by decide, by decide, by decide, rfl⟩⟩

/-- C1 amended: the delegation-cap bound of AddPermissionlessDelegatorTx is
min of the weight factor times the validator weight and the maximum validator
stake, with the product saturated to the largest 64-bit value on overflow
(equal to the unsaturated min whenever the maximum stake fits in 64 bits).
For AddDelegatorTx the bound is five times the validator weight, capped by
the maximum validator stake only when Apricot Phase 3 is active, and a 64-bit
overflow of the product fails verification with the stake-overflow error
instead of saturating. -/
theorem delegationCapBound_amended :
    (∀ factor vw maxStake : ℕ, maxStake < w64 →
      permissionlessDelegatorMaximumWeight factor vw maxStake = min (factor * vw) maxStake) ∧
    (∀ (cfg : PlatformConfig) (t vw : ℕ), MaxValidatorWeightFactor * vw < w64 →
      addDelegatorMaximumWeight cfg t vw =
        .ok (if cfg.isApricotPhase3Activated t then
               min (MaxValidatorWeightFactor * vw) cfg.maxValidatorStake
             else MaxValidatorWeightFactor * vw)) ∧
    (∀ (cfg : PlatformConfig) (t vw : ℕ), w64 ≤ MaxValidatorWeightFactor * vw →
      addDelegatorMaximumWeight cfg t vw = .error .stakeOverflow) ∧
    (∀ (b : Backend) (cs : PChainState) (tx : AddDelegatorTx) (v : StakerInfo),
      b.syntacticOk = true → b.bootstrapped = true →
      ¬(tx.stakingPeriod < b.config.minStakeDuration) →
      ¬(b.config.maxStakeDuration < tx.stakingPeriod) →
      ¬(tx.wght < b.config.minDelegatorStake) →
      cs.getValidator primaryNetworkID tx.nodeID = some v →
      (b.config.isContinuousStakingActivated cs.timestamp = false →
        cs.timestamp < tx.startTime) →
      w64 ≤ MaxValidatorWeightFactor * v.weight →
      verifyAddDelegatorTx b cs tx = .error .stakeOverflow) := by
  refine ⟨permissionlessDelegatorMaximumWeight_eq, addDelegatorMaximumWeight_ok,
    addDelegatorMaximumWeight_overflow, ?_⟩
  intro b cs tx v hsyn hboot hd1 hd2 hw hv htime hov
  have hmw := addDelegatorMaximumWeight_overflow b.config cs.timestamp v.weight hov
  by_cases hcs : b.config.isContinuousStakingActivated cs.timestamp = true
  · simp [verifyAddDelegatorTx, hsyn, hboot, hd1, hd2, hw, hv, hcs, hmw]
  · have hcs' : b.config.isContinuousStakingActivated cs.timestamp = false :=
      Bool.not_eq_true _ ▸ (by simpa using hcs)
    have hlt : cs.timestamp < tx.startTime := htime hcs'
    simp [verifyAddDelegatorTx, hsyn, hboot, hd1, hd2, hw, hv, hcs', hlt, hmw]

theorem delegationCapBound_amended_witness :
    sampleBackend.syntacticOk = true ∧ sampleBackend.bootstrapped = true ∧
    ¬((50 : ℕ) < sampleBackend.config.minStakeDuration) ∧
    ¬(sampleBackend.config.maxStakeDuration < (50 : ℕ)) ∧
    ¬((5 : ℕ) < sampleBackend.config.minDelegatorStake) ∧
    overflowChainState.getValidator primaryNetworkID 1 =
      some { weight := 2 ^ 62, startTime := 0, endTime := 100000000,
             priorityIsPermissionedValidator := false } ∧
    w64 ≤ MaxValidatorWeightFactor * (2 ^ 62) ∧
    verifyAddDelegatorTx sampleBackend overflowChainState
      { nodeID := 1, wght := 5, startTime := 200, stakingPeriod := 50 } =
      .error .stakeOverflow :=
  ⟨rfl, rfl, by decide, by decide, by decide, rfl, by decide,
   delegationCapBound_amended.2.2.2 sampleBackend overflowChainState
     { nodeID := 1, wght := 5, startTime := 200, stakingPeriod := 50 }
     { weight := 2 ^ 62, startTime := 0, endTime := 100000000,
       priorityIsPermissionedValidator := false }
     rfl rfl (by decide) (by decide) (by decide) rfl
     (fun _ => by decide) (by decide)⟩

/-- C3: when verifyStopStakerTx succeeds and the located staker is a
primary-network validator, the returned stop time is its earliest-stop time,
the result set consists of that validator together with exactly the current
stakers sharing its node id (other than itself), and the executor writes
every one of them back, with the earliest-stop time set to the primary
validator earliest-stop time, through the validator update path when its
priority is a validator priority and through the delegator update path
otherwise. -/
theorem stopStakerTx_cascade (b : Backend) (cs : StopChainState) (txID : ℕ)
    (s0 : CStaker) (res : List CStaker) (stopT : ℕ)
    (hfind : cs.currentStakers.find? (fun s => s.txID == txID) = some s0)
    (hval : s0.priorityIsValidator = true)
    (hsub : s0.subnetID = primaryNetworkID)
    (hok : verifyStopStakerTx b cs txID = .ok (res, stopT)) :
    stopT = s0.earliestStopTime ∧
    (∀ s, s ∈ res ↔ s = s0 ∨
      (s ∈ cs.currentStakers ∧ s.nodeID = s0.nodeID ∧ s.txID ≠ s0.txID)) ∧
    stopStakerTxExecute b cs txID =
      .ok (res.map (fun s =>
        if s.priorityIsValidator then
          DiffWrite.updateCurrentValidator { s with earliestStopTime := s0.earliestStopTime }
        else
          DiffWrite.updateCurrentDelegator { s with earliestStopTime := s0.earliestStopTime })) := by
  have hinv := hok
  simp only [verifyStopStakerTx, hfind] at hinv
  split_ifs at hinv with hw hs ha hf hnp
  · simp only [Except.ok.injEq, Prod.mk.injEq] at hinv
    obtain ⟨hres, hstop⟩ := hinv
    subst hres
    subst hstop
    refine ⟨rfl, ?_, ?_⟩
    · intro s
      constructor
      · intro hs2
        rcases List.mem_cons.mp hs2 with rfl | hmem
        · exact Or.inl rfl
        · have h2 := List.mem_filter.mp hmem
          have h3 := h2.2
          simp only [Bool.and_eq_true, beq_iff_eq, bne_iff_ne] at h3
          exact Or.inr ⟨h2.1, h3.1, h3.2⟩
      · rintro (rfl | ⟨hmem, hn, ht⟩)
        · exact List.mem_cons_self _ _
        · refine List.mem_cons_of_mem _ (List.mem_filter.mpr ⟨hmem, ?_⟩)
          simp only [Bool.and_eq_true, beq_iff_eq, bne_iff_ne]
          exact ⟨hn, ht⟩
    · unfold stopStakerTxExecute
      rw [hok]
      rfl
  · exact absurd ⟨by simp [hval], hsub⟩ hnp

theorem stopStakerTx_cascade_witness :
    sampleStopState.currentStakers.find? (fun s => s.txID == 1) = some stopValidator ∧
    stopValidator.priorityIsValidator = true ∧
    stopValidator.subnetID = primaryNetworkID ∧
    verifyStopStakerTx sampleBackend sampleStopState 1 =
      .ok ([stopValidator, stopDelegator, subnetSharingValidator], 500) ∧
    (500 : ℕ) = stopValidator.earliestStopTime :=
  ⟨rfl, rfl, rfl, rfl,
   (stopStakerTx_cascade sampleBackend sampleStopState 1 stopValidator
     [stopValidator, stopDelegator, subnetSharingValidator] 500
     rfl rfl rfl rfl).1⟩

theorem overlayPrimaryPublicKeys_error (primary subnet : VMap) (e : TxErr)
    (h : overlayPrimaryPublicKeys primary subnet = .error e) :
    e = .missingValidator := by
  induction subnet with
  | nil => simp [overlayPrimaryPublicKeys] at h
  | cons a rest ih =>
    simp only [overlayPrimaryPublicKeys] at h
    cases hl : mapLookup primary a.1 with
    | none =>
      rw [hl] at h
      exact ((Except.error.injEq _ _).mp h).symm
    | some p =>
      rw [hl] at h
      cases ho : overlayPrimaryPublicKeys primary rest with
      | error err =>
        rw [ho] at h
        have he : err = e := (Except.error.injEq _ _).mp h
        exact ih (he ▸ ho)
      | ok r2 =>
        rw [ho] at h
        exact Except.noConfusion h

/-- C7: validator-set reconstruction fails with not-found exactly when the
target height exceeds the current height, for both the primary network and
subnet paths; the heights over which the diffs are folded are exactly those
in the interval from target height plus one up to the current height, visited
in strictly decreasing order; and on success the primary path returns the
current in-memory set with the weight diffs and then the public-key diffs
folded over that descending range, at the current height. -/
theorem validatorSet_reconstruction (m : ValidatorManagerState) (targetHeight : ℕ) :
    ((makePrimaryNetworkValidatorSet m targetHeight = .error .notFound) ↔
      m.currentHeight < targetHeight) ∧
    ((makeSubnetValidatorSet m targetHeight = .error .notFound) ↔
      m.currentHeight < targetHeight) ∧
    (∀ h, h ∈ heightsDescending m.currentHeight (targetHeight + 1) ↔
      targetHeight + 1 ≤ h ∧ h ≤ m.currentHeight) ∧
    (heightsDescending m.currentHeight (targetHeight + 1)).Pairwise (· > ·) ∧
    (targetHeight ≤ m.currentHeight →
      makePrimaryNetworkValidatorSet m targetHeight =
        .ok ((heightsDescending m.currentHeight (targetHeight + 1)).foldl
              (fun acc h => m.pkDiffStep h acc)
              ((heightsDescending m.currentHeight (targetHeight + 1)).foldl
                (fun acc h => m.weightDiffStep h acc) m.primarySet),
             m.currentHeight)) := by
  refine ⟨?_, ?_, ?_, ?_, ?_⟩
  · by_cases hlt : m.currentHeight < targetHeight
    · simp [makePrimaryNetworkValidatorSet, hlt]
    · simp [makePrimaryNetworkValidatorSet, hlt]
  · by_cases hlt : m.currentHeight < targetHeight
    · simp [makeSubnetValidatorSet, hlt]
    · simp only [makeSubnetValidatorSet, if_neg hlt]
      cases hov : overlayPrimaryPublicKeys m.primarySet
          (applyValidatorDiffs m.weightDiffStep m.currentHeight (targetHeight + 1)
            m.subnetSet) with
      | error e =>
        have he : e = TxErr.missingValidator :=
          overlayPrimaryPublicKeys_error m.primarySet _ e hov
        subst he
        simp only [hov]
        constructor
        · intro hc
          exact absurd ((Except.error.injEq _ _).mp hc) (by decide)
        · intro hc
          exact absurd hc hlt
      | ok overlaid =>
        simp only [hov]
        constructor
        · intro hc
          exact Except.noConfusion hc
        · intro hc
          exact absurd hc hlt
  · intro h
    unfold heightsDescending
    rw [List.mem_reverse, List.mem_range'_1]
    omega
  · unfold heightsDescending
    rw [List.pairwise_reverse]
    exact List.pairwise_lt_range' _ _
  · intro hle
    simp [makePrimaryNetworkValidatorSet, applyValidatorDiffs,
      show ¬(m.currentHeight < targetHeight) by omega]

end Avalanche
